import Mathlib

/-!
Shallow embedding of the heuristic multi-language structural extractor
(`services/geminiService.ts` together with the graph types from `types.ts`).
Strings are modelled as Lean `String`s; the character-level operations used by
the TypeScript code (`trim`, `search(/\S/)`, `includes`, `endsWith`, the
regular-expression matchers) are re-implemented over `String.data`
(`List Char`) with JavaScript semantics.
-/

namespace StaticCodeViewer

/-- JavaScript whitespace class `\s` (the members that can occur in a line of
source text; lines never contain `\n` after splitting, but we keep it). -/
def isWS (c : Char) : Bool :=
  c = ' ' || c = '\t' || c = '\n' || c = '\r' ||
  c.val = 0x0B || c.val = 0x0C || c.val = 0xA0 || c.val = 0x1680 ||
  (0x2000 ≤ c.val && c.val ≤ 0x200A) ||
  c.val = 0x2028 || c.val = 0x2029 || c.val = 0x202F || c.val = 0x205F ||
  c.val = 0x3000 || c.val = 0xFEFF

/-- JavaScript word-character class `\w` = `[A-Za-z0-9_]`. -/
def isWordChar (c : Char) : Bool :=
  ('a' ≤ c && c ≤ 'z') || ('A' ≤ c && c ≤ 'Z') || ('0' ≤ c && c ≤ '9') || c = '_'

/-- JavaScript `String.prototype.trim`: strip whitespace from both ends. -/
def jsTrim (s : List Char) : List Char :=
  ((s.dropWhile isWS).reverse.dropWhile isWS).reverse

/-- JavaScript `line.search(/\S/)`: index of the first non-whitespace
character, `none` for `-1`. -/
def searchNonWS (s : List Char) : Option Nat :=
  s.findIdx? (fun c => !isWS c)

/-- Number of occurrences of a character, i.e. `(line.match(/c/g)||[]).length`. -/
def countChar (c : Char) (s : List Char) : Nat :=
  (s.filter (fun x => x = c)).length

/-- Boolean infix test on character lists. -/
def listIsInfix (needle : List Char) : List Char → Bool
  | [] => needle.isPrefixOf []
  | c :: t => needle.isPrefixOf (c :: t) || listIsInfix needle t

/-- JavaScript `hay.includes(needle)` (substring containment). -/
def strIncludes (hay needle : String) : Bool :=
  listIsInfix needle.data hay.data

/-- JavaScript `s.endsWith(suffix)`. -/
def strEndsWith (s suffix : String) : Bool :=
  suffix.data.isSuffixOf s.data

/-- The three `type` arguments accepted by `determineEndLine`. -/
inductive EstimatorLang
  | PYTHON
  | JS
  | C_CPP
deriving DecidableEq, Repr

/-- The scanning loop of the indentation strategy in `determineEndLine`
(`for (let i = startIdx + 1; i < lines.length; i++)`): skip blank lines,
return the first index whose indentation is `<= startIndent`, else the line
count.  The fuel argument counts the remaining loop iterations
(`lines.length - i`, kept in step by `pyScan` below) so that the recursion is
structural; inside the loop the index is always in range and `getD` never
takes its default. -/
def pyScanGo (lines : List String) (startIndent : Nat) : Nat → Nat → Nat
  | 0, _ => lines.length
  | fuel + 1, i =>
    let line := lines.getD i ""
    if jsTrim line.data = [] then pyScanGo lines startIndent fuel (i + 1)
    else
      match searchNonWS line.data with
      | some indent => if indent ≤ startIndent then i else pyScanGo lines startIndent fuel (i + 1)
      | none => pyScanGo lines startIndent fuel (i + 1)

/-- The indentation scan started at index `i`. -/
def pyScan (lines : List String) (startIndent i : Nat) : Nat :=
  pyScanGo lines startIndent (lines.length - i) i

/-- The scanning loop of the brace-counting strategy in `determineEndLine`:
running balance `bc`, flag `fb` recording whether any opening brace has been
seen; returns `some (i+1)` at the first line where `fb` holds and the balance
is `≤ 0`, `none` when the input is exhausted.  Fuel as in `pyScanGo`. -/
def braceScanGo (lines : List String) : Nat → Int → Bool → Nat → Option Nat
  | 0, _, _, _ => none
  | fuel + 1, bc, fb, i =>
    let line := (lines.getD i "").data
    let bc1 := bc + (countChar '{' line : Int) - (countChar '}' line : Int)
    let fb1 := fb || decide (0 < countChar '{' line)
    if fb1 && decide (bc1 ≤ 0) then some (i + 1)
    else braceScanGo lines fuel bc1 fb1 (i + 1)

/-- The brace scan started at index `i` with balance `bc` and flag `fb`. -/
def braceScan (lines : List String) (bc : Int) (fb : Bool) (i : Nat) : Option Nat :=
  braceScanGo lines (lines.length - i) bc fb i

/-- `determineEndLine` from `geminiService.ts`.  The source indexes
`lines[startIdx]` directly; every caller passes an in-range index, and we use
the empty string as the (unreachable) out-of-range default. -/
def determineEndLine (lines : List String) (startIdx : Nat) (lang : EstimatorLang) : Nat :=
  match lang with
  | .PYTHON =>
    let startLine := lines.getD startIdx ""
    match searchNonWS startLine.data with
    | none => startIdx + 1
    | some startIndent => pyScan lines startIndent (startIdx + 1)
  | _ =>
    match braceScan lines 0 false startIdx with
    | some r => r
    | none => min (startIdx + 20) lines.length

/-!
Regular-expression matchers.  Each JavaScript regex of `geminiService.ts` is
re-implemented as an executable matcher.  In every pattern below the greedy
quantifiers over `\s`, `\w` and the literal delimiters act on pairwise
disjoint character classes, so each run is forced to be maximal and only the
explicitly implemented backtracking points remain (the `+` over the C type
tokens, the optional `export`/`async` groups, and the greedy `.+` captures).
-/

/-- Shared tail `\s+(\w+)`: one-or-more whitespace, then the captured
one-or-more word characters. -/
def wsThenWord (s : List Char) : Option String :=
  let w := s.takeWhile isWS
  if w = [] then none
  else
    let r := s.drop w.length
    let n := r.takeWhile isWordChar
    if n = [] then none else some (String.mk n)

/-- Python class pattern `^class\s+(\w+)`. -/
def matchPyClass (line : String) : Option String :=
  if "class".data.isPrefixOf line.data then wsThenWord (line.data.drop 5) else none

/-- Python function pattern `^\s*def\s+(\w+)`. -/
def matchPyFunc (line : String) : Option String :=
  let s := line.data.dropWhile isWS
  if "def".data.isPrefixOf s then wsThenWord (s.drop 3) else none

/-- Python import pattern `^(?:from|import)\s+(\w+)` (the two alternatives
have distinct first letters, so ordered alternation is plain case split). -/
def matchPyImport (line : String) : Option String :=
  if "from".data.isPrefixOf line.data then wsThenWord (line.data.drop 4)
  else if "import".data.isPrefixOf line.data then wsThenWord (line.data.drop 6)
  else none

/-- Tail `class\s+(\w+)` of the ECMA class pattern. -/
def matchClassTail (s : List Char) : Option String :=
  if "class".data.isPrefixOf s then wsThenWord (s.drop 5) else none

/-- ECMA class pattern `^(?:export\s+)?class\s+(\w+)`.  When `export` is a
prefix but no whitespace follows, the optional group backtracks to empty and
the mandatory `class` then fails anyway (a string cannot start with both
`export` and `class`), which the fall-through below reproduces. -/
def matchJsClass (line : String) : Option String :=
  if "export".data.isPrefixOf line.data then
    let rest := line.data.drop 6
    let w := rest.takeWhile isWS
    if w = [] then matchClassTail line.data
    else matchClassTail (rest.drop w.length)
  else matchClassTail line.data

/-- Alternative 1 of the ECMA function pattern: `function\s+(\w+)`. -/
def jsFuncAlt1 (s : List Char) : Option String :=
  if "function".data.isPrefixOf s then wsThenWord (s.drop 8) else none

/-- Shared front `const\s+(\w+)\s*=\s*` of alternatives 2 and 3; returns the
captured name and the remaining input. -/
def jsConstEq (s : List Char) : Option (String × List Char) :=
  if "const".data.isPrefixOf s then
    let r := s.drop 5
    let w := r.takeWhile isWS
    if w = [] then none
    else
      let r2 := r.drop w.length
      let name := r2.takeWhile isWordChar
      if name = [] then none
      else
        match (r2.drop name.length).dropWhile isWS with
        | '=' :: r4 => some (String.mk name, r4.dropWhile isWS)
        | _ => none
  else none

/-- Alternative 2 of the ECMA function pattern:
`const\s+(\w+)\s*=\s*(?:async\s*)?\(`.  When `async` is a prefix but no `(`
follows it, the empty branch of the optional group cannot succeed either
(the head is then `a`, not `(`), matching the single test below. -/
def jsFuncAlt2 (s : List Char) : Option String :=
  match jsConstEq s with
  | some (name, r) =>
    let r2 := if "async".data.isPrefixOf r then (r.drop 5).dropWhile isWS else r
    match r2 with
    | '(' :: _ => some name
    | _ => none
  | none => none

/-- Tail `\w+\s*=>` of alternative 3. -/
def arrowTail (t : List Char) : Bool :=
  let wrun := t.takeWhile isWordChar
  if wrun = [] then false
  else
    match (t.drop wrun.length).dropWhile isWS with
    | '=' :: '>' :: _ => true
    | _ => false

/-- Alternative 3 of the ECMA function pattern:
`const\s+(\w+)\s*=\s*(?:async\s*)?\w+\s*=>`.  The optional `async` group is
a genuine backtracking point (`const f = async => x` succeeds only through
the empty branch), so both branches are tried in order. -/
def jsFuncAlt3 (s : List Char) : Option String :=
  match jsConstEq s with
  | some (name, r) =>
    if "async".data.isPrefixOf r then
      if arrowTail ((r.drop 5).dropWhile isWS) then some name
      else if arrowTail r then some name
      else none
    else if arrowTail r then some name
    else none
  | none => none

/-- Unanchored scan of the ECMA function pattern
`function\s+(\w+)|const\s+(\w+)\s*=\s*(?:async\s*)?\(|const\s+(\w+)\s*=\s*(?:async\s*)?\w+\s*=>`:
the three alternatives are tried in order at each start position, leftmost
position first; `funcMatch[1] || funcMatch[2] || funcMatch[3]` then picks the
(sole) captured group of the successful alternative. -/
def jsFuncScan : List Char → Option String
  | [] => none
  | c :: t =>
    match jsFuncAlt1 (c :: t) with
    | some n => some n
    | none =>
      match jsFuncAlt2 (c :: t) with
      | some n => some n
      | none =>
        match jsFuncAlt3 (c :: t) with
        | some n => some n
        | none => jsFuncScan t

/-- ECMA function matcher applied to a whole line. -/
def matchJsFunc (line : String) : Option String :=
  jsFuncScan line.data

/-- Greedy capture `(.+)` followed by a closing delimiter class: succeeds on
the largest index `j ≥ 1` whose character satisfies `p`, capturing
everything before it. -/
def lastDelimCapture (p : Char → Bool) (s : List Char) : Option String :=
  match s.reverse.findIdx? p with
  | some k =>
    if 1 ≤ s.length - 1 - k then some (String.mk (s.take (s.length - 1 - k))) else none
  | none => none

/-- One attempt of the ECMA import pattern `from\s+['"](.+)['"]` at a fixed
start position. -/
def jsImportAt (s : List Char) : Option String :=
  if "from".data.isPrefixOf s then
    let r := s.drop 4
    let w := r.takeWhile isWS
    if w = [] then none
    else
      match r.drop w.length with
      | q :: rest =>
        if q = '\'' || q = '"' then lastDelimCapture (fun c => c = '\'' || c = '"') rest
        else none
      | [] => none
  else none

/-- Unanchored scan for the ECMA import pattern. -/
def jsImportScan : List Char → Option String
  | [] => none
  | c :: t =>
    match jsImportAt (c :: t) with
    | some r => some r
    | none => jsImportScan t

/-- ECMA import matcher `from\s+['"](.+)['"]` applied to a whole line. -/
def matchJsImport (line : String) : Option String :=
  jsImportScan line.data

/-- C/C++ class pattern `^\s*(?:class|struct)\s+(\w+)` (distinct first
letters, so ordered alternation is plain case split). -/
def matchCppClass (line : String) : Option String :=
  let s := line.data.dropWhile isWS
  if "class".data.isPrefixOf s then wsThenWord (s.drop 5)
  else if "struct".data.isPrefixOf s then wsThenWord (s.drop 6)
  else none

/-- Character class `[\w:*&<>]` of the C/C++ type tokens. -/
def isCppTypeChar (c : Char) : Bool :=
  isWordChar c || c = ':' || c = '*' || c = '&' || c = '<' || c = '>'

/-- Character class `[\w:]` of the captured C/C++ function name. -/
def isCppNameChar (c : Char) : Bool :=
  isWordChar c || c = ':'

/-- Tail `([\w:]+)\s*\(` of the C/C++ function pattern: a maximal name run,
optional whitespace, then an opening parenthesis. -/
def cppCaptureAt (s : List Char) : Option String :=
  let brun := s.takeWhile isCppNameChar
  if brun = [] then none
  else
    match (s.drop brun.length).dropWhile isWS with
    | '(' :: _ => some (String.mk brun)
    | _ => none

/-- One iteration `[\w:*&<>]+\s+` of the C/C++ type-token group: a maximal
nonempty type-token run followed by a nonempty whitespace run. -/
def cppGroupIter (s : List Char) : Option (List Char) :=
  let arun := s.takeWhile isCppTypeChar
  if arun = [] then none
  else
    let after := s.drop arun.length
    let wsrun := after.takeWhile isWS
    if wsrun = [] then none
    else some (after.drop wsrun.length)

/-- Greedy `(?:[\w:*&<>]+\s+)+` followed by the capture: consume as many
group iterations as possible, preferring the deepest position for the
capture and backtracking outward on failure.  Every successful
`cppGroupIter` removes at least two characters, so a fuel of `s.length`
(consumed once per iteration, see `cppGroupsThenCapture`) never runs out
before the iterator itself fails. -/
def cppGroupsGo : Nat → List Char → Option String
  | 0, _ => none
  | fuel + 1, s =>
    match cppGroupIter s with
    | none => none
    | some s1 =>
      match cppGroupsGo fuel s1 with
      | some name => some name
      | none => cppCaptureAt s1

/-- The greedy group scan started on the whole input. -/
def cppGroupsThenCapture (s : List Char) : Option String :=
  cppGroupsGo s.length s

/-- C/C++ function pattern `^\s*(?:[\w:*&<>]+\s+)+([\w:]+)\s*\(`. -/
def cppFuncMatch (line : String) : Option String :=
  cppGroupsThenCapture (line.data.dropWhile isWS)

/-- C/C++ include pattern `^#include\s+[<"](.+)[>"]`. -/
def matchCppInclude (line : String) : Option String :=
  if "#include".data.isPrefixOf line.data then
    let r := line.data.drop 8
    let w := r.takeWhile isWS
    if w = [] then none
    else
      match r.drop w.length with
      | q :: rest =>
        if q = '<' || q = '"' then lastDelimCapture (fun c => c = '>' || c = '"') rest
        else none
      | [] => none
  else none

/-!  Data model from `types.ts` and the extractor from `geminiService.ts`. -/

/-- `CodeFile` from `types.ts` (the optional `language` field is never read
by the extractor and is omitted). -/
structure CodeFile where
  name : String
  path : String
  content : String
deriving DecidableEq, Repr

/-- `NodeType` enum from `types.ts`. -/
inductive NodeType
  | FILE
  | CLASS
  | FUNCTION
  | MODULE
deriving DecidableEq, Repr

/-- The string value of each `NodeType` enum member. -/
def nodeTypeStr : NodeType → String
  | .FILE => "FILE"
  | .CLASS => "CLASS"
  | .FUNCTION => "FUNCTION"
  | .MODULE => "MODULE"

/-- `GraphNode` from `types.ts`; the extractor always sets every field used
here (the never-written `line` field is omitted). -/
structure GraphNode where
  id : String
  label : String
  type : NodeType
  file : String
  startLine : Nat
  endLine : Nat
  details : String
deriving DecidableEq, Repr

/-- The `type` alternatives of `GraphLink` from `types.ts`. -/
inductive LinkType
  | IMPORT
  | CALL
  | INHERITANCE
  | CONTAINS
deriving DecidableEq, Repr

/-- `GraphLink` from `types.ts`. -/
structure GraphLink where
  source : String
  target : String
  type : LinkType
deriving DecidableEq, Repr

/-- `AnalysisResult` from `types.ts`. -/
structure AnalysisResult where
  nodes : List GraphNode
  links : List GraphLink
  summary : String
deriving DecidableEq, Repr

/-- `generateId` from `geminiService.ts`:
`(type, name, file) => type + ":" + file + ":" + name`. -/
def generateId (type name file : String) : String :=
  type ++ ":" ++ file ++ ":" ++ name

/-- JavaScript `s.split(sep)` for a single-character separator: `cur` is the
reversed current segment.  Splitting the empty string yields `[""]`, and a
trailing separator yields a trailing empty segment, as in JavaScript. -/
def splitOnCharAux (sep : Char) (cur : List Char) : List Char → List String
  | [] => [String.mk cur.reverse]
  | c :: t =>
    if c = sep then String.mk cur.reverse :: splitOnCharAux sep [] t
    else splitOnCharAux sep (c :: cur) t

/-- JavaScript `s.split(sep)` for a single-character separator. -/
def splitOnChar (sep : Char) (s : String) : List String :=
  splitOnCharAux sep [] s.data

/-- `f.content.split('\n')`. -/
def linesOf (f : CodeFile) : List String :=
  splitOnChar '\n' f.content

/-- Insertion-order key list of the `fileNodes` JavaScript `Map` (re-setting
an existing key keeps its position; the stored value is always
`"FILE:" ++ path`, so only the keys need recording). -/
def mapSetFold (paths : List String) : List String :=
  paths.foldl (fun acc p => if acc.contains p then acc else acc ++ [p]) []

/-- Extension dispatch `f.path.match(/\.(js|ts|jsx|tsx)$/)`. -/
def isJsPath (p : String) : Bool :=
  strEndsWith p ".js" || strEndsWith p ".ts" || strEndsWith p ".jsx" || strEndsWith p ".tsx"

/-- Extension dispatch `f.path.match(/\.(c|cpp|h|hpp|cc)$/)`. -/
def isCppPath (p : String) : Bool :=
  strEndsWith p ".c" || strEndsWith p ".cpp" || strEndsWith p ".h" ||
  strEndsWith p ".hpp" || strEndsWith p ".cc"

/-- The mutable state threaded through one file's line loop: the accumulated
`nodes` and `links` arrays and the `currentClass` cursor. -/
structure LineState where
  nodes : List GraphNode
  links : List GraphLink
  currentClass : Option GraphNode
deriving Repr

/-- The control-flow keywords excluded by the C/C++ function heuristic. -/
def cppKeywords : List String :=
  ["if", "while", "for", "switch", "return", "catch", "else", "new", "delete"]

/-- Import edges produced by one matched import/include statement: one edge
per other file whose path satisfies `matches`, in `fileNodes` map order. -/
def importLinksFor (filePaths : List String) (fPath fileId : String)
    (pred : String → Bool) : List GraphLink :=
  (filePaths.filter (fun p => pred p && p != fPath)).map
    (fun p => { source := fileId, target := "FILE:" ++ p, type := .IMPORT })

/-- The Class node built by the Python branch for a match at `index`. -/
def pyClassNode (f : CodeFile) (lines : List String) (index : Nat) (name : String) : GraphNode :=
  { id := generateId "CLASS" name f.path, label := name, type := .CLASS, file := f.path,
    startLine := index + 1, endLine := determineEndLine lines index .PYTHON,
    details := "Class definition in " ++ f.name }

/-- The Function node built by the Python branch for a match at `index`. -/
def pyFuncNode (f : CodeFile) (lines : List String) (index : Nat) (name : String) : GraphNode :=
  { id := generateId "FUNCTION" name f.path, label := name, type := .FUNCTION, file := f.path,
    startLine := index + 1, endLine := determineEndLine lines index .PYTHON,
    details := "Function definition in " ++ f.name }

/-- Whether `line.search(/\S/) > 0` (the indentation test of the Python
function-containment heuristic; `-1` counts as not positive). -/
def indentPositive (line : String) : Bool :=
  match searchNonWS line.data with
  | some k => decide (0 < k)
  | none => false

/-- The Python branch of the per-line dispatch.  A class match at depth ≥ 2
returns early (skipping the function and import checks, which can never
match a `class` line anyway); a function match attaches to `currentClass`
when the line is indented and a class is active, else to the file, resetting
the cursor. -/
def pyStep (depth : Int) (f : CodeFile) (lines : List String) (filePaths : List String)
    (fileId : String) (index : Nat) (line : String) (st : LineState) : LineState :=
  match (if 2 ≤ depth then matchPyClass line else none) with
  | some name =>
    let node := pyClassNode f lines index name
    { nodes := st.nodes ++ [node],
      links := st.links ++ [{ source := fileId, target := node.id, type := .CONTAINS }],
      currentClass := some node }
  | none =>
    let st1 :=
      match (if 3 ≤ depth then matchPyFunc line else none) with
      | some name =>
        let node := pyFuncNode f lines index name
        match st.currentClass with
        | some c =>
          if indentPositive line then
            { st with nodes := st.nodes ++ [node],
                      links := st.links ++ [{ source := c.id, target := node.id, type := .CONTAINS }] }
          else
            { nodes := st.nodes ++ [node],
              links := st.links ++ [{ source := fileId, target := node.id, type := .CONTAINS }],
              currentClass := none }
        | none =>
          { nodes := st.nodes ++ [node],
            links := st.links ++ [{ source := fileId, target := node.id, type := .CONTAINS }],
            currentClass := none }
      | none => st
    match matchPyImport line with
    | some moduleName =>
      { st1 with links := st1.links ++
          importLinksFor filePaths f.path fileId (fun p => strIncludes p moduleName) }
    | none => st1

/-- The Class node built by the ECMA branch for a match at `index`. -/
def jsClassNode (f : CodeFile) (lines : List String) (index : Nat) (name : String) : GraphNode :=
  { id := generateId "CLASS" name f.path, label := name, type := .CLASS, file := f.path,
    startLine := index + 1, endLine := determineEndLine lines index .JS,
    details := "Class definition in " ++ f.name }

/-- The Function node built by the ECMA branch for a match at `index`. -/
def jsFuncNode (f : CodeFile) (lines : List String) (index : Nat) (name : String) : GraphNode :=
  { id := generateId "FUNCTION" name f.path, label := name, type := .FUNCTION, file := f.path,
    startLine := index + 1, endLine := determineEndLine lines index .JS,
    details := "Function definition in " ++ f.name }

/-- The class sub-step of the ECMA branch. -/
def jsClassSub (depth : Int) (f : CodeFile) (lines : List String) (fileId : String)
    (index : Nat) (line : String) (st : LineState) : LineState :=
  match (if 2 ≤ depth then matchJsClass line else none) with
  | some name =>
    let node := jsClassNode f lines index name
    { st with
      nodes := st.nodes ++ [node],
      links := st.links ++ [{ source := fileId, target := node.id, type := .CONTAINS }] }
  | none => st

/-- The function sub-step of the ECMA branch. -/
def jsFuncSub (depth : Int) (f : CodeFile) (lines : List String) (fileId : String)
    (index : Nat) (line : String) (st : LineState) : LineState :=
  match (if 3 ≤ depth then matchJsFunc line else none) with
  | some name =>
    let node := jsFuncNode f lines index name
    { st with
      nodes := st.nodes ++ [node],
      links := st.links ++ [{ source := fileId, target := node.id, type := .CONTAINS }] }
  | none => st

/-- The import sub-step of the ECMA branch (`from '...'`; the last path
segment is substring-matched against every other file's path). -/
def jsImportSub (f : CodeFile) (filePaths : List String) (fileId : String)
    (line : String) (st : LineState) : LineState :=
  match matchJsImport line with
  | some pathPart =>
    if (splitOnChar '/' pathPart).getLastD "" != "" then
      { st with links := st.links ++ importLinksFor filePaths f.path fileId (fun p => strIncludes p ((splitOnChar '/' pathPart).getLastD "")) }
    else st
  | none => st

/-- The ECMA branch of the per-line dispatch (no `currentClass` tracking;
functions always attach to the file): class check, then function check,
then import check, applied in the source's order. -/
def jsStep (depth : Int) (f : CodeFile) (lines : List String) (filePaths : List String)
    (fileId : String) (index : Nat) (line : String) (st : LineState) : LineState :=
  jsImportSub f filePaths fileId line
    (jsFuncSub depth f lines fileId index line
      (jsClassSub depth f lines fileId index line st))

/-- The Class node built by the C/C++ branch for a match at `index`. -/
def cppClassNode (f : CodeFile) (lines : List String) (index : Nat) (name : String) : GraphNode :=
  { id := generateId "CLASS" name f.path, label := name, type := .CLASS, file := f.path,
    startLine := index + 1, endLine := determineEndLine lines index .C_CPP,
    details := "Class/Struct definition in " ++ f.name }

/-- The Function node built by the C/C++ branch for a match at `index`. -/
def cppFuncNode (f : CodeFile) (lines : List String) (index : Nat) (name : String) : GraphNode :=
  { id := generateId "FUNCTION" name f.path, label := name, type := .FUNCTION, file := f.path,
    startLine := index + 1, endLine := determineEndLine lines index .C_CPP,
    details := "Function definition in " ++ f.name }

/-- The class/struct sub-step of the C/C++ branch. -/
def cppClassSub (depth : Int) (f : CodeFile) (lines : List String) (fileId : String)
    (index : Nat) (line : String) (st : LineState) : LineState :=
  match (if 2 ≤ depth then matchCppClass line else none) with
  | some name =>
    let node := cppClassNode f lines index name
    { st with
      nodes := st.nodes ++ [node],
      links := st.links ++ [{ source := fileId, target := node.id, type := .CONTAINS }] }
  | none => st

/-- The function sub-step of the C/C++ branch: a match is dropped when the
captured name is a control-flow keyword or the trimmed line ends in a
semicolon (forward declarations). -/
def cppFuncSub (depth : Int) (f : CodeFile) (lines : List String) (fileId : String)
    (index : Nat) (line : String) (st : LineState) : LineState :=
  match (if 3 ≤ depth then cppFuncMatch line else none) with
  | some name =>
    if !cppKeywords.contains name && !strEndsWith (String.mk (jsTrim line.data)) ";" then
      let node := cppFuncNode f lines index name
      { st with
        nodes := st.nodes ++ [node],
        links := st.links ++ [{ source := fileId, target := node.id, type := .CONTAINS }] }
    else st
  | none => st

/-- The include sub-step of the C/C++ branch (`#include`; the last path
segment is suffix-matched against every other file's path). -/
def cppIncludeSub (f : CodeFile) (filePaths : List String) (fileId : String)
    (line : String) (st : LineState) : LineState :=
  match matchCppInclude line with
  | some includedPath =>
    if (splitOnChar '/' includedPath).getLastD "" != "" then
      { st with links := st.links ++ importLinksFor filePaths f.path fileId (fun p => strEndsWith p ((splitOnChar '/' includedPath).getLastD "")) }
    else st
  | none => st

/-- The C/C++ branch of the per-line dispatch: class/struct check, then the
filtered function check, then the include check, in the source's order. -/
def cppStep (depth : Int) (f : CodeFile) (lines : List String) (filePaths : List String)
    (fileId : String) (index : Nat) (line : String) (st : LineState) : LineState :=
  cppIncludeSub f filePaths fileId line
    (cppFuncSub depth f lines fileId index line
      (cppClassSub depth f lines fileId index line st))

/-- One iteration of the per-line `forEach`: skip blank lines, then dispatch
on the file extension (`.py`, then the ECMA extensions, then the C/C++
extensions; other files contribute nothing). -/
def processLine (depth : Int) (f : CodeFile) (lines : List String) (filePaths : List String)
    (fileId : String) (st : LineState) (entry : Nat × String) : LineState :=
  if jsTrim entry.2.data = [] then st
  else if strEndsWith f.path ".py" then
    pyStep depth f lines filePaths fileId entry.1 entry.2 st
  else if isJsPath f.path then
    jsStep depth f lines filePaths fileId entry.1 entry.2 st
  else if isCppPath f.path then
    cppStep depth f lines filePaths fileId entry.1 entry.2 st
  else st

/-- The per-file construct pass: split into lines, reset `currentClass`, and
fold the per-line step over the enumerated lines.  The `fileNodes` map always
stores `"FILE:" ++ path` under `path`, so `fileNodes.get(f.path)!` is
`"FILE:" ++ f.path`. -/
def processFile (depth : Int) (filePaths : List String)
    (acc : List GraphNode × List GraphLink) (f : CodeFile) :
    List GraphNode × List GraphLink :=
  let lines := linesOf f
  let fileId := "FILE:" ++ f.path
  let final := lines.enum.foldl (processLine depth f lines filePaths fileId)
    { nodes := acc.1, links := acc.2, currentClass := none }
  (final.nodes, final.links)

/-- The File node emitted for each input file in the first pass. -/
def mkFileNode (f : CodeFile) : GraphNode :=
  { id := "FILE:" ++ f.path, label := f.name, type := .FILE, file := f.path,
    startLine := 1, endLine := (linesOf f).length, details := "File: " ++ f.path }

/-- `analyzeCodebase` from `geminiService.ts` (the `async`/`Promise`
wrapping is dropped: the body is a single synchronous computation). -/
def analyzeCodebase (files : List CodeFile) (depth : Int := 3) : AnalysisResult :=
  let filePaths := mapSetFold (files.map (fun f => f.path))
  let fileNodeList := files.map mkFileNode
  let result := files.foldl (processFile depth filePaths) (fileNodeList, [])
  { nodes := result.1,
    links := result.2,
    summary := "Offline analysis complete (Depth: " ++ toString depth ++ "). \n  Scanned " ++
      toString files.length ++ " files. \n  Identified " ++
      toString (result.1.filter (fun n => decide (n.type = NodeType.CLASS))).length ++
      " classes and " ++
      toString (result.1.filter (fun n => decide (n.type = NodeType.FUNCTION))).length ++
      " functions." }

/-!  Basic lemmas about the character-level helpers. -/

theorem jsTrim_eq_nil_iff {s : List Char} : jsTrim s = [] ↔ ∀ c ∈ s, isWS c := by
  unfold jsTrim
  rw [List.reverse_eq_nil_iff, List.dropWhile_eq_nil_iff]
  constructor
  · intro h c hc
    rw [← List.takeWhile_append_dropWhile isWS s] at hc
    rcases List.mem_append.mp hc with h1 | h2
    · exact List.mem_takeWhile_imp h1
    · exact h _ (List.mem_reverse.mpr h2)
  · intro h c hc
    exact h c ((List.dropWhile_sublist (l := s) isWS).subset (List.mem_reverse.mp hc))

theorem searchNonWS_eq_none_iff {s : List Char} : searchNonWS s = none ↔ ∀ c ∈ s, isWS c := by
  unfold searchNonWS
  rw [List.findIdx?_eq_none_iff]
  simp

/-!  Characterization of the two scope-boundary strategies (claims about
`determineEndLine`).  The terminating condition of each scan is packaged as a
Boolean predicate on the candidate line index, phrased the way the
specification describes it, and each scan is shown to return the first index
satisfying it. -/

/-- Terminator of the indentation scan at index `j`: a non-blank line whose
indentation is at most `startIndent`. -/
def pyTermB (lines : List String) (startIndent j : Nat) : Bool :=
  !decide (jsTrim (lines.getD j "").data = []) &&
    (match searchNonWS (lines.getD j "").data with
     | some indent => decide (indent ≤ startIndent)
     | none => false)

theorem find?_range'_succ (p : Nat → Bool) (j n : Nat) :
    List.find? p (List.range' j (n + 1)) =
      if p j then some j else List.find? p (List.range' (j + 1) n) := by
  rw [List.range'_succ, List.find?_cons]
  cases p j <;> simp

theorem pyScanGo_eq_find (lines : List String) (startIndent : Nat) :
    ∀ fuel j, j + fuel = lines.length →
      pyScanGo lines startIndent fuel j =
        ((List.range' j fuel).find? (pyTermB lines startIndent)).getD lines.length := by
  intro fuel
  induction fuel with
  | zero => intro j _; simp [pyScanGo]
  | succ fuel ih =>
    intro j hj
    rw [find?_range'_succ]
    by_cases hb : jsTrim (lines.getD j "").data = []
    · have ht : pyTermB lines startIndent j = false := by
        unfold pyTermB
        rw [hb]
        simp
      rw [ht, if_neg (by simp)]
      show pyScanGo lines startIndent (fuel + 1) j = _
      rw [pyScanGo]
      simp only [hb, if_pos rfl]
      exact ih (j + 1) (by omega)
    · cases hs : searchNonWS (lines.getD j "").data with
      | none =>
        have ht : pyTermB lines startIndent j = false := by
          unfold pyTermB
          rw [hs]
          simp
        rw [ht, if_neg (by simp)]
        rw [pyScanGo]
        simp only [hb, if_neg hb, hs]
        exact ih (j + 1) (by omega)
      | some indent =>
        by_cases hle : indent ≤ startIndent
        · have ht : pyTermB lines startIndent j = true := by
            unfold pyTermB
            rw [hs, decide_eq_false hb]
            simp [hle]
          rw [ht, if_pos rfl]
          rw [pyScanGo]
          simp only [hb, if_neg hb, hs, hle, if_pos hle]
          simp
        · have ht : pyTermB lines startIndent j = false := by
            unfold pyTermB
            rw [hs]
            simp [hle]
          rw [ht, if_neg (by simp)]
          rw [pyScanGo]
          simp only [hb, if_neg hb, hs, hle, if_neg hle]
          exact ih (j + 1) (by omega)

/-- Per-line brace balance `(line.match(/\{/g)||[]).length` minus
`(line.match(/\}/g)||[]).length`. -/
def braceDelta (line : String) : Int :=
  (countChar '{' line.data : Int) - (countChar '}' line.data : Int)

/-- Sum of the brace balances of lines `[j, j + k)`. -/
def braceBalP (lines : List String) (j k : Nat) : Int :=
  (((lines.drop j).take k).map braceDelta).sum

/-- Whether any of lines `[j, j + k)` contains an opening brace. -/
def braceSeenP (lines : List String) (j k : Nat) : Bool :=
  ((lines.drop j).take k).any (fun l => decide (0 < countChar '{' l.data))

theorem braceBalP_zero (lines : List String) (j : Nat) : braceBalP lines j 0 = 0 := by
  simp [braceBalP]

theorem braceSeenP_zero (lines : List String) (j : Nat) : braceSeenP lines j 0 = false := by
  simp [braceSeenP]

theorem drop_cons_of_lt {lines : List String} {j : Nat} (h : j < lines.length) :
    lines.drop j = lines.getD j "" :: lines.drop (j + 1) := by
  rw [List.getD_eq_getElem lines "" h]
  exact List.drop_eq_getElem_cons h

theorem braceBalP_succ_left {lines : List String} {j : Nat} (h : j < lines.length) (k : Nat) :
    braceBalP lines j (k + 1) = braceDelta (lines.getD j "") + braceBalP lines (j + 1) k := by
  unfold braceBalP
  rw [drop_cons_of_lt h]
  simp

theorem braceSeenP_succ_left {lines : List String} {j : Nat} (h : j < lines.length) (k : Nat) :
    braceSeenP lines j (k + 1) =
      (decide (0 < countChar '{' (lines.getD j "").data) || braceSeenP lines (j + 1) k) := by
  unfold braceSeenP
  rw [drop_cons_of_lt h]
  simp

theorem find?_congr_mem {α : Type} {p q : α → Bool} :
    ∀ {l : List α}, (∀ a ∈ l, p a = q a) → l.find? p = l.find? q := by
  intro l
  induction l with
  | nil => intro _; rfl
  | cons a t ih =>
    intro h
    rw [List.find?_cons, List.find?_cons, h a (by simp)]
    cases q a with
    | true => rfl
    | false => exact ih (fun b hb => h b (by simp [hb]))

theorem braceScanGo_eq_find (lines : List String) :
    ∀ fuel j bc fb, j + fuel = lines.length →
      braceScanGo lines fuel bc fb j =
        ((List.range' j fuel).find?
          (fun k => (fb || braceSeenP lines j (k + 1 - j)) &&
            decide (bc + braceBalP lines j (k + 1 - j) ≤ 0))).map (fun k => k + 1) := by
  intro fuel
  induction fuel with
  | zero => intro j bc fb _; simp [braceScanGo]
  | succ fuel ih =>
    intro j bc fb hj
    have hlt : j < lines.length := by omega
    have hseen1 : braceSeenP lines j 1 = decide (0 < countChar '{' (lines.getD j "").data) := by
      rw [braceSeenP_succ_left hlt 0, braceSeenP_zero]
      simp
    have hbal1 : braceBalP lines j 1 = braceDelta (lines.getD j "") := by
      rw [braceBalP_succ_left hlt 0, braceBalP_zero]
      simp
    have hpj : ((fb || braceSeenP lines j (j + 1 - j)) &&
        decide (bc + braceBalP lines j (j + 1 - j) ≤ 0)) =
        ((fb || decide (0 < countChar '{' (lines.getD j "").data)) &&
          decide (bc + (countChar '{' (lines.getD j "").data : Int) -
            (countChar '}' (lines.getD j "").data : Int) ≤ 0)) := by
      have h1 : j + 1 - j = 1 := by omega
      rw [h1, hseen1, hbal1]
      congr 1
      rw [decide_eq_decide]
      unfold braceDelta
      omega
    simp only [find?_range'_succ]
    rw [hpj]
    simp only [braceScanGo]
    by_cases hcond : ((fb || decide (0 < countChar '{' (lines.getD j "").data)) &&
        decide (bc + (countChar '{' (lines.getD j "").data : Int) -
          (countChar '}' (lines.getD j "").data : Int) ≤ 0)) = true
    · rw [if_pos hcond, if_pos hcond]
      rfl
    · rw [if_neg hcond, if_neg hcond]
      rw [ih (j + 1) (bc + (countChar '{' (lines.getD j "").data : Int) -
        (countChar '}' (lines.getD j "").data : Int))
        (fb || decide (0 < countChar '{' (lines.getD j "").data)) (by omega)]
      apply congrArg
      apply find?_congr_mem
      intro a ha
      have haj : j + 1 ≤ a := (List.mem_range'_1.mp ha).1
      have hm : a + 1 - (j + 1) = a - j := by omega
      have hm2 : a + 1 - j = (a - j) + 1 := by omega
      rw [hm, hm2, braceSeenP_succ_left hlt (a - j), braceBalP_succ_left hlt (a - j)]
      congr 1
      · rw [Bool.or_assoc]
      · rw [decide_eq_decide]
        unfold braceDelta
        omega

/-- Terminator of the brace scan started at `start`, evaluated at index `k`:
at least one `{` seen in lines `[start, k]` and the running balance over
those lines is `≤ 0`. -/
def braceTermB (lines : List String) (start k : Nat) : Bool :=
  braceSeenP lines start (k + 1 - start) && decide (braceBalP lines start (k + 1 - start) ≤ 0)

theorem braceScan_eq_find {lines : List String} {i : Nat} (h : i ≤ lines.length) :
    braceScan lines 0 false i =
      ((List.range' i (lines.length - i)).find? (braceTermB lines i)).map (fun k => k + 1) := by
  unfold braceScan
  rw [braceScanGo_eq_find lines (lines.length - i) i 0 false (by omega)]
  apply congrArg
  apply find?_congr_mem
  intro a _
  unfold braceTermB
  simp only [Bool.false_or, zero_add]

theorem determineEndLine_python_none {lines : List String} {i : Nat}
    (h : searchNonWS (lines.getD i "").data = none) :
    determineEndLine lines i .PYTHON = i + 1 := by
  show (match searchNonWS (lines.getD i "").data with
        | none => i + 1
        | some startIndent => pyScan lines startIndent (i + 1)) = i + 1
  rw [h]

theorem determineEndLine_python_some {lines : List String} {i si : Nat}
    (h : searchNonWS (lines.getD i "").data = some si) :
    determineEndLine lines i .PYTHON = pyScan lines si (i + 1) := by
  show (match searchNonWS (lines.getD i "").data with
        | none => i + 1
        | some startIndent => pyScan lines startIndent (i + 1)) = pyScan lines si (i + 1)
  rw [h]

theorem determineEndLine_js_eq (lines : List String) (i : Nat) :
    determineEndLine lines i .JS =
      (match braceScan lines 0 false i with
       | some r => r
       | none => min (i + 20) lines.length) := rfl

theorem determineEndLine_cpp_eq (lines : List String) (i : Nat) :
    determineEndLine lines i .C_CPP =
      (match braceScan lines 0 false i with
       | some r => r
       | none => min (i + 20) lines.length) := rfl

/-- C4: the IndentationScoped estimator returns `startIndex + 1` when the
start line is entirely whitespace; otherwise it returns the index of the
first subsequent non-blank line whose indentation is at most the start
line's indentation (blank lines never terminate the block), and the total
line count when no such line exists; and on
`["class A:", "    def f():", "        pass", "class B:"]` with start index
`0` it returns `3`. -/
theorem c4_indentation_scoped_estimator :
    (∀ (lines : List String) (i : Nat), i < lines.length →
      ((lines.getD i "").data.all isWS = true → determineEndLine lines i .PYTHON = i + 1) ∧
      (∀ si, searchNonWS (lines.getD i "").data = some si →
        determineEndLine lines i .PYTHON =
          ((List.range' (i + 1) (lines.length - (i + 1))).find? (pyTermB lines si)).getD
            lines.length)) ∧
    determineEndLine ["class A:", "    def f():", "        pass", "class B:"] 0 .PYTHON = 3 := by
  constructor
  · intro lines i hi
    constructor
    · intro hall
      apply determineEndLine_python_none
      rw [searchNonWS_eq_none_iff]
      intro c hc
      exact List.all_eq_true.mp hall c hc
    · intro si hsi
      rw [determineEndLine_python_some hsi]
      unfold pyScan
      exact pyScanGo_eq_find lines si (lines.length - (i + 1)) (i + 1) (by omega)
  · decide

/-- C5: the BraceScoped estimator returns `k + 1` for the first line index
`k` at which at least one `{` has been seen and the running brace balance is
`≤ 0`, and `min (startIndex + 20) lineCount` when the scan exhausts the
input; and on `["void f() {", "  if (x) {", "  }", "}", "void g() {}"]` with
start index `0` it returns `4`. -/
theorem c5_brace_scoped_estimator :
    (∀ (lines : List String) (i : Nat), i < lines.length →
      determineEndLine lines i .C_CPP =
        (match (List.range' i (lines.length - i)).find? (braceTermB lines i) with
         | some k => k + 1
         | none => min (i + 20) lines.length)) ∧
    determineEndLine ["void f() \x7b", "  if (x) \x7b", "  \x7d", "\x7d", "void g() \x7b\x7d"] 0 .C_CPP = 4 := by
  constructor
  · intro lines i hi
    simp only [determineEndLine]
    rw [braceScan_eq_find (le_of_lt hi)]
    cases hf : (List.range' i (lines.length - i)).find? (braceTermB lines i) with
    | some k => rfl
    | none => rfl
  · decide

/-- Bounds of the scope-boundary estimator at an in-range start index: the
result lies in `[startIdx + 1, lines.length]` for every strategy. -/
theorem determineEndLine_bounds {lines : List String} {i : Nat} (h : i < lines.length)
    (lang : EstimatorLang) :
    i + 1 ≤ determineEndLine lines i lang ∧ determineEndLine lines i lang ≤ lines.length := by
  cases lang with
  | PYTHON =>
    cases hs : searchNonWS (lines.getD i "").data with
    | none =>
      rw [determineEndLine_python_none hs]
      exact ⟨le_refl _, by omega⟩
    | some si =>
      rw [determineEndLine_python_some hs]
      unfold pyScan
      rw [pyScanGo_eq_find lines si (lines.length - (i + 1)) (i + 1) (by omega)]
      cases hf : (List.range' (i + 1) (lines.length - (i + 1))).find? (pyTermB lines si) with
      | some k =>
        have hk := List.mem_range'_1.mp (List.mem_of_find?_eq_some hf)
        refine ⟨?_, ?_⟩ <;> simp only [Option.getD_some] <;> omega
      | none => exact ⟨by simp only [Option.getD_none]; omega, by simp only [Option.getD_none]; omega⟩
  | JS =>
    rw [determineEndLine_js_eq, braceScan_eq_find (le_of_lt h)]
    cases hf : (List.range' i (lines.length - i)).find? (braceTermB lines i) with
    | some k =>
      have hk := List.mem_range'_1.mp (List.mem_of_find?_eq_some hf)
      refine ⟨Nat.succ_le_succ hk.1, ?_⟩
      show k + 1 ≤ lines.length
      have := hk.2
      omega
    | none =>
      constructor
      · show i + 1 ≤ min (i + 20) lines.length
        omega
      · show min (i + 20) lines.length ≤ lines.length
        omega
  | C_CPP =>
    rw [determineEndLine_cpp_eq, braceScan_eq_find (le_of_lt h)]
    cases hf : (List.range' i (lines.length - i)).find? (braceTermB lines i) with
    | some k =>
      have hk := List.mem_range'_1.mp (List.mem_of_find?_eq_some hf)
      refine ⟨Nat.succ_le_succ hk.1, ?_⟩
      show k + 1 ≤ lines.length
      have := hk.2
      omega
    | none =>
      constructor
      · show i + 1 ≤ min (i + 20) lines.length
        omega
      · show min (i + 20) lines.length ≤ lines.length
        omega

/-!  Per-line decompositions: each branch step appends a pure function of the
line to the accumulated nodes, and (after filtering) to the import links. -/

/-- The nodes the Python branch emits for one line. -/
def pyNewNodes (depth : Int) (f : CodeFile) (lines : List String) (index : Nat)
    (line : String) : List GraphNode :=
  match (if 2 ≤ depth then matchPyClass line else none) with
  | some name => [pyClassNode f lines index name]
  | none =>
    match (if 3 ≤ depth then matchPyFunc line else none) with
    | some name => [pyFuncNode f lines index name]
    | none => []

/-- The nodes the ECMA branch emits for one line. -/
def jsNewNodes (depth : Int) (f : CodeFile) (lines : List String) (index : Nat)
    (line : String) : List GraphNode :=
  (match (if 2 ≤ depth then matchJsClass line else none) with
   | some name => [jsClassNode f lines index name]
   | none => []) ++
  (match (if 3 ≤ depth then matchJsFunc line else none) with
   | some name => [jsFuncNode f lines index name]
   | none => [])

/-- The nodes the C/C++ branch emits for one line. -/
def cppNewNodes (depth : Int) (f : CodeFile) (lines : List String) (index : Nat)
    (line : String) : List GraphNode :=
  (match (if 2 ≤ depth then matchCppClass line else none) with
   | some name => [cppClassNode f lines index name]
   | none => []) ++
  (match (if 3 ≤ depth then cppFuncMatch line else none) with
   | some name =>
     if !cppKeywords.contains name && !strEndsWith (String.mk (jsTrim line.data)) ";" then
       [cppFuncNode f lines index name]
     else []
   | none => [])

/-- The nodes one line contributes, after the blank-line skip and the
extension dispatch. -/
def lineNewNodes (depth : Int) (f : CodeFile) (lines : List String) (index : Nat)
    (line : String) : List GraphNode :=
  if jsTrim line.data = [] then []
  else if strEndsWith f.path ".py" then pyNewNodes depth f lines index line
  else if isJsPath f.path then jsNewNodes depth f lines index line
  else if isCppPath f.path then cppNewNodes depth f lines index line
  else []

theorem pyStep_nodes (depth : Int) (f : CodeFile) (lines : List String)
    (filePaths : List String) (fileId : String) (index : Nat) (line : String) (st : LineState) :
    (pyStep depth f lines filePaths fileId index line st).nodes =
      st.nodes ++ pyNewNodes depth f lines index line := by
  obtain ⟨ns, ls, cc⟩ := st
  unfold pyStep pyNewNodes
  cases (if 2 ≤ depth then matchPyClass line else none) with
  | some name => rfl
  | none =>
    cases (if 3 ≤ depth then matchPyFunc line else none) with
    | some name =>
      cases cc <;> cases indentPositive line <;> cases matchPyImport line <;>
        (repeat' split) <;> simp_all
    | none =>
      cases matchPyImport line <;> simp

theorem jsClassSub_nodes (depth : Int) (f : CodeFile) (lines : List String)
    (fileId : String) (index : Nat) (line : String) (st : LineState) :
    (jsClassSub depth f lines fileId index line st).nodes =
      st.nodes ++
        (match (if 2 ≤ depth then matchJsClass line else none) with
         | some name => [jsClassNode f lines index name]
         | none => []) := by
  unfold jsClassSub
  cases (if 2 ≤ depth then matchJsClass line else none) <;> simp

theorem jsFuncSub_nodes (depth : Int) (f : CodeFile) (lines : List String)
    (fileId : String) (index : Nat) (line : String) (st : LineState) :
    (jsFuncSub depth f lines fileId index line st).nodes =
      st.nodes ++
        (match (if 3 ≤ depth then matchJsFunc line else none) with
         | some name => [jsFuncNode f lines index name]
         | none => []) := by
  unfold jsFuncSub
  cases (if 3 ≤ depth then matchJsFunc line else none) <;> simp

theorem jsImportSub_nodes (f : CodeFile) (filePaths : List String) (fileId : String)
    (line : String) (st : LineState) :
    (jsImportSub f filePaths fileId line st).nodes = st.nodes := by
  unfold jsImportSub
  cases matchJsImport line with
  | none => rfl
  | some pp => split <;> (try split) <;> rfl

theorem jsStep_nodes (depth : Int) (f : CodeFile) (lines : List String)
    (filePaths : List String) (fileId : String) (index : Nat) (line : String) (st : LineState) :
    (jsStep depth f lines filePaths fileId index line st).nodes =
      st.nodes ++ jsNewNodes depth f lines index line := by
  unfold jsStep jsNewNodes
  rw [jsImportSub_nodes, jsFuncSub_nodes, jsClassSub_nodes, List.append_assoc]

theorem cppClassSub_nodes (depth : Int) (f : CodeFile) (lines : List String)
    (fileId : String) (index : Nat) (line : String) (st : LineState) :
    (cppClassSub depth f lines fileId index line st).nodes =
      st.nodes ++
        (match (if 2 ≤ depth then matchCppClass line else none) with
         | some name => [cppClassNode f lines index name]
         | none => []) := by
  unfold cppClassSub
  cases (if 2 ≤ depth then matchCppClass line else none) <;> simp

theorem cppFuncSub_nodes (depth : Int) (f : CodeFile) (lines : List String)
    (fileId : String) (index : Nat) (line : String) (st : LineState) :
    (cppFuncSub depth f lines fileId index line st).nodes =
      st.nodes ++
        (match (if 3 ≤ depth then cppFuncMatch line else none) with
         | some name =>
           if !cppKeywords.contains name && !strEndsWith (String.mk (jsTrim line.data)) ";" then
             [cppFuncNode f lines index name]
           else []
         | none => []) := by
  unfold cppFuncSub
  cases (if 3 ≤ depth then cppFuncMatch line else none) with
  | none => simp
  | some name =>
    simp
    split <;> simp_all

theorem cppIncludeSub_nodes (f : CodeFile) (filePaths : List String) (fileId : String)
    (line : String) (st : LineState) :
    (cppIncludeSub f filePaths fileId line st).nodes = st.nodes := by
  unfold cppIncludeSub
  cases matchCppInclude line with
  | none => rfl
  | some pp => split <;> (try split) <;> rfl

theorem cppStep_nodes (depth : Int) (f : CodeFile) (lines : List String)
    (filePaths : List String) (fileId : String) (index : Nat) (line : String) (st : LineState) :
    (cppStep depth f lines filePaths fileId index line st).nodes =
      st.nodes ++ cppNewNodes depth f lines index line := by
  unfold cppStep cppNewNodes
  rw [cppIncludeSub_nodes, cppFuncSub_nodes, cppClassSub_nodes, List.append_assoc]

theorem isPrefixOf_cons_head {a : Char} {as l : List Char}
    (h : (a :: as).isPrefixOf l = true) : l.head? = some a := by
  cases l with
  | nil => simp [List.isPrefixOf] at h
  | cons c cs =>
    simp [List.isPrefixOf] at h
    rw [List.head?_cons, h.1]

theorem if_none_eq_some {c : Prop} [Decidable c] {α : Type} {o : Option α} {n : α}
    (h : (if c then o else none) = some n) : o = some n := by
  by_cases hc : c
  · rwa [if_pos hc] at h
  · rw [if_neg hc] at h
    exact absurd h (by simp)

theorem matchPyClass_prefix {line : String} {n : String} (h : matchPyClass line = some n) :
    "class".data.isPrefixOf line.data = true := by
  unfold matchPyClass at h
  by_cases hp : "class".data.isPrefixOf line.data = true
  · exact hp
  · rw [if_neg hp] at h
    exact absurd h (by simp)

/-- A line that matches the Python class pattern starts with `c`, so it can
never also match the Python import pattern (`from`/`import`). -/
theorem pyClass_import_disjoint {line : String} {n : String}
    (h : matchPyClass line = some n) : matchPyImport line = none := by
  have hp : (('c' : Char) :: ['l', 'a', 's', 's']).isPrefixOf line.data = true :=
    matchPyClass_prefix h
  have hc : line.data.head? = some 'c' := isPrefixOf_cons_head hp
  unfold matchPyImport
  by_cases hf : "from".data.isPrefixOf line.data = true
  · have hf2 : (('f' : Char) :: ['r', 'o', 'm']).isPrefixOf line.data = true := hf
    have := isPrefixOf_cons_head hf2
    rw [hc] at this
    exact absurd this (by decide)
  · by_cases hi : "import".data.isPrefixOf line.data = true
    · have hi2 : (('i' : Char) :: ['m', 'p', 'o', 'r', 't']).isPrefixOf line.data = true := hi
      have := isPrefixOf_cons_head hi2
      rw [hc] at this
      exact absurd this (by decide)
    · rw [if_neg hf, if_neg hi]

/-- Boolean test for an Import edge. -/
def isImportLink (l : GraphLink) : Bool :=
  decide (l.type = LinkType.IMPORT)

theorem isImportLink_contains (s t : String) :
    isImportLink { source := s, target := t, type := .CONTAINS } = false := rfl

theorem filter_importLinksFor (filePaths : List String) (fPath fileId : String)
    (pred : String → Bool) :
    (importLinksFor filePaths fPath fileId pred).filter isImportLink =
      importLinksFor filePaths fPath fileId pred := by
  apply List.filter_eq_self.mpr
  intro l hl
  rcases List.mem_map.mp hl with ⟨p, _, rfl⟩
  rfl

/-- The import links the Python branch emits for one line. -/
def pyNewImports (filePaths : List String) (f : CodeFile) (fileId : String)
    (line : String) : List GraphLink :=
  match matchPyImport line with
  | some moduleName => importLinksFor filePaths f.path fileId (fun p => strIncludes p moduleName)
  | none => []

/-- The import links the ECMA branch emits for one line. -/
def jsNewImports (filePaths : List String) (f : CodeFile) (fileId : String)
    (line : String) : List GraphLink :=
  match matchJsImport line with
  | some pathPart =>
    if (splitOnChar '/' pathPart).getLastD "" != "" then
      importLinksFor filePaths f.path fileId
        (fun p => strIncludes p ((splitOnChar '/' pathPart).getLastD ""))
    else []
  | none => []

/-- The import links the C/C++ branch emits for one line. -/
def cppNewImports (filePaths : List String) (f : CodeFile) (fileId : String)
    (line : String) : List GraphLink :=
  match matchCppInclude line with
  | some includedPath =>
    if (splitOnChar '/' includedPath).getLastD "" != "" then
      importLinksFor filePaths f.path fileId
        (fun p => strEndsWith p ((splitOnChar '/' includedPath).getLastD ""))
    else []
  | none => []

/-- The import links one line contributes; note that this function does not
depend on the depth. -/
def lineNewImports (f : CodeFile) (filePaths : List String) (fileId : String)
    (line : String) : List GraphLink :=
  if jsTrim line.data = [] then []
  else if strEndsWith f.path ".py" then pyNewImports filePaths f fileId line
  else if isJsPath f.path then jsNewImports filePaths f fileId line
  else if isCppPath f.path then cppNewImports filePaths f fileId line
  else []

theorem pyStep_links_filter (depth : Int) (f : CodeFile) (lines : List String)
    (filePaths : List String) (fileId : String) (index : Nat) (line : String) (st : LineState) :
    ((pyStep depth f lines filePaths fileId index line st).links).filter isImportLink =
      st.links.filter isImportLink ++ pyNewImports filePaths f fileId line := by
  obtain ⟨ns, ls, cc⟩ := st
  unfold pyStep pyNewImports
  cases hcm : (if 2 ≤ depth then matchPyClass line else none) with
  | some name =>
    have himp : matchPyImport line = none := pyClass_import_disjoint (if_none_eq_some hcm)
    rw [himp]
    simp [List.filter_append, isImportLink]
  | none =>
    cases hfm : (if 3 ≤ depth then matchPyFunc line else none) with
    | some name =>
      cases cc <;> cases indentPositive line <;>
        cases matchPyImport line <;>
          (repeat' split) <;>
            simp_all [List.filter_append, isImportLink, filter_importLinksFor]
    | none =>
      cases matchPyImport line <;>
        simp [List.filter_append, isImportLink, filter_importLinksFor]

theorem jsClassSub_links_filter (depth : Int) (f : CodeFile) (lines : List String)
    (fileId : String) (index : Nat) (line : String) (st : LineState) :
    ((jsClassSub depth f lines fileId index line st).links).filter isImportLink =
      st.links.filter isImportLink := by
  unfold jsClassSub
  cases (if 2 ≤ depth then matchJsClass line else none) <;>
    simp [List.filter_append, isImportLink]

theorem jsFuncSub_links_filter (depth : Int) (f : CodeFile) (lines : List String)
    (fileId : String) (index : Nat) (line : String) (st : LineState) :
    ((jsFuncSub depth f lines fileId index line st).links).filter isImportLink =
      st.links.filter isImportLink := by
  unfold jsFuncSub
  cases (if 3 ≤ depth then matchJsFunc line else none) <;>
    simp [List.filter_append, isImportLink]

theorem jsImportSub_links_filter (f : CodeFile) (filePaths : List String) (fileId : String)
    (line : String) (st : LineState) :
    ((jsImportSub f filePaths fileId line st).links).filter isImportLink =
      st.links.filter isImportLink ++ jsNewImports filePaths f fileId line := by
  unfold jsImportSub jsNewImports
  cases matchJsImport line with
  | none => simp
  | some pp =>
    split <;> simp [List.filter_append, filter_importLinksFor] <;>
      (try (split <;> simp_all [List.filter_append, filter_importLinksFor]))

theorem jsStep_links_filter (depth : Int) (f : CodeFile) (lines : List String)
    (filePaths : List String) (fileId : String) (index : Nat) (line : String) (st : LineState) :
    ((jsStep depth f lines filePaths fileId index line st).links).filter isImportLink =
      st.links.filter isImportLink ++ jsNewImports filePaths f fileId line := by
  unfold jsStep
  rw [jsImportSub_links_filter, jsFuncSub_links_filter, jsClassSub_links_filter]

theorem cppClassSub_links_filter (depth : Int) (f : CodeFile) (lines : List String)
    (fileId : String) (index : Nat) (line : String) (st : LineState) :
    ((cppClassSub depth f lines fileId index line st).links).filter isImportLink =
      st.links.filter isImportLink := by
  unfold cppClassSub
  cases (if 2 ≤ depth then matchCppClass line else none) <;>
    simp [List.filter_append, isImportLink]

theorem cppFuncSub_links_filter (depth : Int) (f : CodeFile) (lines : List String)
    (fileId : String) (index : Nat) (line : String) (st : LineState) :
    ((cppFuncSub depth f lines fileId index line st).links).filter isImportLink =
      st.links.filter isImportLink := by
  unfold cppFuncSub
  cases (if 3 ≤ depth then cppFuncMatch line else none) with
  | none => simp
  | some name =>
    split <;> simp [List.filter_append, isImportLink] <;>
      (try (split <;> simp_all [List.filter_append, isImportLink]))

theorem cppIncludeSub_links_filter (f : CodeFile) (filePaths : List String) (fileId : String)
    (line : String) (st : LineState) :
    ((cppIncludeSub f filePaths fileId line st).links).filter isImportLink =
      st.links.filter isImportLink ++ cppNewImports filePaths f fileId line := by
  unfold cppIncludeSub cppNewImports
  cases matchCppInclude line with
  | none => simp
  | some pp =>
    split <;> simp [List.filter_append, filter_importLinksFor] <;>
      (try (split <;> simp_all [List.filter_append, filter_importLinksFor]))

theorem cppStep_links_filter (depth : Int) (f : CodeFile) (lines : List String)
    (filePaths : List String) (fileId : String) (index : Nat) (line : String) (st : LineState) :
    ((cppStep depth f lines filePaths fileId index line st).links).filter isImportLink =
      st.links.filter isImportLink ++ cppNewImports filePaths f fileId line := by
  unfold cppStep
  rw [cppIncludeSub_links_filter, cppFuncSub_links_filter, cppClassSub_links_filter]

theorem processLine_links_filter (depth : Int) (f : CodeFile) (lines : List String)
    (filePaths : List String) (fileId : String) (st : LineState) (entry : Nat × String) :
    ((processLine depth f lines filePaths fileId st entry).links).filter isImportLink =
      st.links.filter isImportLink ++ lineNewImports f filePaths fileId entry.2 := by
  unfold processLine lineNewImports
  by_cases hb : jsTrim entry.2.data = []
  · simp [hb]
  · by_cases hpy : strEndsWith f.path ".py" = true
    · simp [hb, hpy, pyStep_links_filter]
    · by_cases hjs : isJsPath f.path = true
      · simp [hb, hpy, hjs, jsStep_links_filter]
      · by_cases hcpp : isCppPath f.path = true
        · simp [hb, hpy, hjs, hcpp, cppStep_links_filter]
        · simp [hb, hpy, hjs, hcpp]

theorem processLine_nodes (depth : Int) (f : CodeFile) (lines : List String)
    (filePaths : List String) (fileId : String) (st : LineState) (entry : Nat × String) :
    (processLine depth f lines filePaths fileId st entry).nodes =
      st.nodes ++ lineNewNodes depth f lines entry.1 entry.2 := by
  unfold processLine lineNewNodes
  by_cases hb : jsTrim entry.2.data = []
  · simp [hb]
  · by_cases hpy : strEndsWith f.path ".py" = true
    · simp [hb, hpy, pyStep_nodes]
    · by_cases hjs : isJsPath f.path = true
      · simp [hb, hpy, hjs, jsStep_nodes]
      · by_cases hcpp : isCppPath f.path = true
        · simp [hb, hpy, hjs, hcpp, cppStep_nodes]
        · simp [hb, hpy, hjs, hcpp]

/-!  Folding the per-line decompositions over a whole file and over the
whole file list. -/

/-- All nodes a list of enumerated lines contributes. -/
def nodesOfEntries (depth : Int) (f : CodeFile) (lines : List String)
    (entries : List (Nat × String)) : List GraphNode :=
  entries.flatMap (fun e => lineNewNodes depth f lines e.1 e.2)

/-- All import links a list of enumerated lines contributes. -/
def importsOfEntries (f : CodeFile) (filePaths : List String) (fileId : String)
    (entries : List (Nat × String)) : List GraphLink :=
  entries.flatMap (fun e => lineNewImports f filePaths fileId e.2)

theorem foldl_processLine_nodes (depth : Int) (f : CodeFile) (lines : List String)
    (filePaths : List String) (fileId : String) :
    ∀ (entries : List (Nat × String)) (st : LineState),
      (entries.foldl (processLine depth f lines filePaths fileId) st).nodes =
        st.nodes ++ nodesOfEntries depth f lines entries := by
  intro entries
  induction entries with
  | nil => intro st; simp [nodesOfEntries]
  | cons e es ih =>
    intro st
    rw [List.foldl_cons, ih, processLine_nodes]
    unfold nodesOfEntries
    rw [List.flatMap_cons, List.append_assoc]

theorem foldl_processLine_links_filter (depth : Int) (f : CodeFile) (lines : List String)
    (filePaths : List String) (fileId : String) :
    ∀ (entries : List (Nat × String)) (st : LineState),
      ((entries.foldl (processLine depth f lines filePaths fileId) st).links).filter
          isImportLink =
        st.links.filter isImportLink ++ importsOfEntries f filePaths fileId entries := by
  intro entries
  induction entries with
  | nil => intro st; simp [importsOfEntries]
  | cons e es ih =>
    intro st
    rw [List.foldl_cons, ih, processLine_links_filter]
    unfold importsOfEntries
    rw [List.flatMap_cons, List.append_assoc]

/-- All nodes one file contributes beyond its File node. -/
def fileNewNodes (depth : Int) (f : CodeFile) : List GraphNode :=
  nodesOfEntries depth f (linesOf f) (linesOf f).enum

/-- All import links one file contributes. -/
def fileNewImports (filePaths : List String) (f : CodeFile) : List GraphLink :=
  importsOfEntries f filePaths ("FILE:" ++ f.path) (linesOf f).enum

theorem processFile_fst (depth : Int) (filePaths : List String)
    (acc : List GraphNode × List GraphLink) (f : CodeFile) :
    (processFile depth filePaths acc f).1 = acc.1 ++ fileNewNodes depth f := by
  show (List.foldl (processLine depth f (linesOf f) filePaths ("FILE:" ++ f.path))
      { nodes := acc.1, links := acc.2, currentClass := none } (linesOf f).enum).nodes =
    acc.1 ++ fileNewNodes depth f
  rw [foldl_processLine_nodes]
  rfl

theorem processFile_snd_filter (depth : Int) (filePaths : List String)
    (acc : List GraphNode × List GraphLink) (f : CodeFile) :
    ((processFile depth filePaths acc f).2).filter isImportLink =
      acc.2.filter isImportLink ++ fileNewImports filePaths f := by
  show ((List.foldl (processLine depth f (linesOf f) filePaths ("FILE:" ++ f.path))
      { nodes := acc.1, links := acc.2, currentClass := none } (linesOf f).enum).links).filter
      isImportLink =
    acc.2.filter isImportLink ++ fileNewImports filePaths f
  rw [foldl_processLine_links_filter]
  rfl

theorem foldl_processFile_fst (depth : Int) (filePaths : List String) :
    ∀ (fs : List CodeFile) (acc : List GraphNode × List GraphLink),
      (fs.foldl (processFile depth filePaths) acc).1 =
        acc.1 ++ fs.flatMap (fileNewNodes depth) := by
  intro fs
  induction fs with
  | nil => intro acc; simp
  | cons f fs ih =>
    intro acc
    rw [List.foldl_cons, ih, processFile_fst, List.flatMap_cons, List.append_assoc]

theorem foldl_processFile_snd_filter (depth : Int) (filePaths : List String) :
    ∀ (fs : List CodeFile) (acc : List GraphNode × List GraphLink),
      ((fs.foldl (processFile depth filePaths) acc).2).filter isImportLink =
        acc.2.filter isImportLink ++ fs.flatMap (fileNewImports filePaths) := by
  intro fs
  induction fs with
  | nil => intro acc; simp
  | cons f fs ih =>
    intro acc
    rw [List.foldl_cons, ih, processFile_snd_filter, List.flatMap_cons, List.append_assoc]

theorem analyzeCodebase_nodes (files : List CodeFile) (depth : Int) :
    (analyzeCodebase files depth).nodes =
      files.map mkFileNode ++ files.flatMap (fileNewNodes depth) := by
  show (List.foldl (processFile depth (mapSetFold (files.map (fun f => f.path))))
      (files.map mkFileNode, []) files).1 =
    files.map mkFileNode ++ files.flatMap (fileNewNodes depth)
  rw [foldl_processFile_fst]

theorem analyzeCodebase_links_filter (files : List CodeFile) (depth : Int) :
    ((analyzeCodebase files depth).links).filter isImportLink =
      files.flatMap (fileNewImports (mapSetFold (files.map CodeFile.path))) := by
  show ((List.foldl (processFile depth (mapSetFold (files.map (fun f => f.path))))
      (files.map mkFileNode, []) files).2).filter isImportLink =
    files.flatMap (fileNewImports (mapSetFold (files.map CodeFile.path)))
  rw [foldl_processFile_snd_filter]
  rfl

/-!  Depth monotonicity. -/

theorem flatMap_sublist_of_forall {α β : Type} {l : List α} {f g : α → List β}
    (h : ∀ a ∈ l, (f a).Sublist (g a)) : (l.flatMap f).Sublist (l.flatMap g) := by
  induction l with
  | nil => simp
  | cons a t ih =>
    rw [List.flatMap_cons, List.flatMap_cons]
    exact (h a (by simp)).append (ih fun b hb => h b (by simp [hb]))

theorem pyNewNodes_sublist {d d' : Int} (h : d ≤ d') (f : CodeFile) (lines : List String)
    (index : Nat) (line : String) :
    (pyNewNodes d f lines index line).Sublist (pyNewNodes d' f lines index line) := by
  unfold pyNewNodes
  by_cases hd2 : (2 : Int) ≤ d
  · rw [if_pos hd2, if_pos (le_trans hd2 h)]
    by_cases hd3 : (3 : Int) ≤ d
    · rw [if_pos hd3, if_pos (le_trans hd3 h)]
    · rw [if_neg hd3]
      by_cases hd3' : (3 : Int) ≤ d'
      · rw [if_pos hd3']
        cases matchPyClass line <;> cases matchPyFunc line <;> simp
      · rw [if_neg hd3']
  · rw [if_neg hd2]
    have hd3 : ¬ (3 : Int) ≤ d := by omega
    rw [if_neg hd3]
    cases (if 2 ≤ d' then matchPyClass line else none) <;>
      cases (if 3 ≤ d' then matchPyFunc line else none) <;> simp

theorem jsNewNodes_sublist {d d' : Int} (h : d ≤ d') (f : CodeFile) (lines : List String)
    (index : Nat) (line : String) :
    (jsNewNodes d f lines index line).Sublist (jsNewNodes d' f lines index line) := by
  unfold jsNewNodes
  apply List.Sublist.append
  · by_cases hd2 : (2 : Int) ≤ d
    · rw [if_pos hd2, if_pos (le_trans hd2 h)]
    · rw [if_neg hd2]
      cases (if 2 ≤ d' then matchJsClass line else none) <;> simp
  · by_cases hd3 : (3 : Int) ≤ d
    · rw [if_pos hd3, if_pos (le_trans hd3 h)]
    · rw [if_neg hd3]
      cases (if 3 ≤ d' then matchJsFunc line else none) <;> simp

theorem cppNewNodes_sublist {d d' : Int} (h : d ≤ d') (f : CodeFile) (lines : List String)
    (index : Nat) (line : String) :
    (cppNewNodes d f lines index line).Sublist (cppNewNodes d' f lines index line) := by
  unfold cppNewNodes
  apply List.Sublist.append
  · by_cases hd2 : (2 : Int) ≤ d
    · rw [if_pos hd2, if_pos (le_trans hd2 h)]
    · rw [if_neg hd2]
      cases (if 2 ≤ d' then matchCppClass line else none) <;> simp
  · by_cases hd3 : (3 : Int) ≤ d
    · rw [if_pos hd3, if_pos (le_trans hd3 h)]
    · rw [if_neg hd3]
      cases (if 3 ≤ d' then cppFuncMatch line else none) <;>
        exact List.nil_sublist _

theorem lineNewNodes_sublist {d d' : Int} (h : d ≤ d') (f : CodeFile) (lines : List String)
    (index : Nat) (line : String) :
    (lineNewNodes d f lines index line).Sublist (lineNewNodes d' f lines index line) := by
  unfold lineNewNodes
  by_cases hb : jsTrim line.data = []
  · rw [if_pos hb, if_pos hb]
  · rw [if_neg hb, if_neg hb]
    by_cases hpy : strEndsWith f.path ".py" = true
    · rw [if_pos hpy, if_pos hpy]
      exact pyNewNodes_sublist h f lines index line
    · rw [if_neg hpy, if_neg hpy]
      by_cases hjs : isJsPath f.path = true
      · rw [if_pos hjs, if_pos hjs]
        exact jsNewNodes_sublist h f lines index line
      · rw [if_neg hjs, if_neg hjs]
        by_cases hcpp : isCppPath f.path = true
        · rw [if_pos hcpp, if_pos hcpp]
          exact cppNewNodes_sublist h f lines index line
        · rw [if_neg hcpp, if_neg hcpp]

theorem analyzeCodebase_nodes_sublist {d d' : Int} (h : d ≤ d') (files : List CodeFile) :
    ((analyzeCodebase files d).nodes).Sublist ((analyzeCodebase files d').nodes) := by
  rw [analyzeCodebase_nodes, analyzeCodebase_nodes]
  refine List.Sublist.append (List.Sublist.refl _) ?_
  apply flatMap_sublist_of_forall
  intro f _
  unfold fileNewNodes nodesOfEntries
  apply flatMap_sublist_of_forall
  intro e _
  exact lineNewNodes_sublist h f (linesOf f) e.1 e.2

/-- C2: for every file set, the node-id set at depth 1 is contained in that
at depth 2, which is contained in that at depth 3 (in fact the node lists are
sublists), and the Import-edge lists — hence their multisets — are identical
at depths 1, 2 and 3. -/
theorem c2_depth_monotonicity (files : List CodeFile) :
    ((analyzeCodebase files 1).nodes.map GraphNode.id ⊆
      (analyzeCodebase files 2).nodes.map GraphNode.id) ∧
    ((analyzeCodebase files 2).nodes.map GraphNode.id ⊆
      (analyzeCodebase files 3).nodes.map GraphNode.id) ∧
    ((analyzeCodebase files 1).links.filter isImportLink =
      (analyzeCodebase files 2).links.filter isImportLink) ∧
    ((analyzeCodebase files 2).links.filter isImportLink =
      (analyzeCodebase files 3).links.filter isImportLink) := by
  refine ⟨?_, ?_, ?_, ?_⟩
  · exact (List.Sublist.map GraphNode.id
      (analyzeCodebase_nodes_sublist (by norm_num) files)).subset
  · exact (List.Sublist.map GraphNode.id
      (analyzeCodebase_nodes_sublist (by norm_num) files)).subset
  · rw [analyzeCodebase_links_filter, analyzeCodebase_links_filter]
  · rw [analyzeCodebase_links_filter, analyzeCodebase_links_filter]

/-!  Shape of the emitted links. -/

theorem string_append_left_cancel {a b c : String} (h : a ++ b = a ++ c) : b = c := by
  have hd : a.data ++ b.data = a.data ++ c.data := by
    have := congrArg String.data h
    simpa [String.data_append] using this
  have hbc : b.data = c.data := List.append_cancel_left hd
  cases b
  cases c
  exact congrArg String.mk hbc

theorem importLinksFor_mem {filePaths : List String} {fPath fileId : String}
    {pred : String → Bool} {l : GraphLink} (h : l ∈ importLinksFor filePaths fPath fileId pred) :
    ∃ p, p ≠ fPath ∧ l = { source := fileId, target := "FILE:" ++ p, type := .IMPORT } := by
  rcases List.mem_map.mp h with ⟨p, hp, rfl⟩
  rcases List.mem_filter.mp hp with ⟨_, hcond⟩
  refine ⟨p, ?_, rfl⟩
  simp only [Bool.and_eq_true, bne_iff_ne] at hcond
  exact hcond.2

theorem lineNewImports_mem {f : CodeFile} {filePaths : List String} {fileId line : String}
    {l : GraphLink} (h : l ∈ lineNewImports f filePaths fileId line) :
    ∃ p, p ≠ f.path ∧ l = { source := fileId, target := "FILE:" ++ p, type := .IMPORT } := by
  unfold lineNewImports at h
  split at h
  · exact absurd h (by simp)
  · split at h
    · unfold pyNewImports at h
      split at h
      · exact importLinksFor_mem h
      · exact absurd h (by simp)
    · split at h
      · unfold jsNewImports at h
        split at h
        · split at h
          · exact importLinksFor_mem h
          · exact absurd h (by simp)
        · exact absurd h (by simp)
      · split at h
        · unfold cppNewImports at h
          split at h
          · split at h
            · exact importLinksFor_mem h
            · exact absurd h (by simp)
          · exact absurd h (by simp)
        · exact absurd h (by simp)

/-- Every Import edge of the produced graph: its source is the enclosing
file's node id, its target is another file's node id over a path different
from the enclosing file's. -/
theorem analyzeCodebase_import_mem {files : List CodeFile} {depth : Int} {l : GraphLink}
    (hl : l ∈ (analyzeCodebase files depth).links) (ht : l.type = .IMPORT) :
    ∃ f ∈ files, ∃ p, p ≠ f.path ∧
      l = { source := "FILE:" ++ f.path, target := "FILE:" ++ p, type := .IMPORT } := by
  have hf : l ∈ ((analyzeCodebase files depth).links).filter isImportLink :=
    List.mem_filter.mpr ⟨hl, by simp [isImportLink, ht]⟩
  rw [analyzeCodebase_links_filter] at hf
  rcases List.mem_flatMap.mp hf with ⟨f, hfmem, hl2⟩
  unfold fileNewImports importsOfEntries at hl2
  rcases List.mem_flatMap.mp hl2 with ⟨e, _, hl3⟩
  rcases lineNewImports_mem hl3 with ⟨p, hpne, rfl⟩
  exact ⟨f, hfmem, p, hpne, rfl⟩

/-- C10: no file ever receives an Import edge to itself — for every file
set and every depth, every Import edge has distinct source and target. -/
theorem c10_no_self_import (files : List CodeFile) (depth : Int) :
    ∀ l ∈ (analyzeCodebase files depth).links, l.type = .IMPORT → l.source ≠ l.target := by
  intro l hl ht
  rcases analyzeCodebase_import_mem hl ht with ⟨f, _, p, hpne, rfl⟩
  intro hcontra
  simp only at hcontra
  exact hpne (string_append_left_cancel hcontra).symm

/-!  The Contains forest shape (by id prefix). -/

/-- The three id-prefix shapes a Contains edge can have: File→Class,
File→Function, or Class→Function. -/
def containsShape (l : GraphLink) : Prop :=
  ((∃ t, l.source = "FILE:" ++ t) ∧
    ((∃ t, l.target = "CLASS:" ++ t) ∨ (∃ t, l.target = "FUNCTION:" ++ t))) ∨
  ((∃ t, l.source = "CLASS:" ++ t) ∧ (∃ t, l.target = "FUNCTION:" ++ t))

/-- A link is well-shaped when, if it is a Contains edge, it has one of the
three forest shapes. -/
def linkOK (l : GraphLink) : Prop :=
  l.type = .CONTAINS → containsShape l

/-- The `currentClass` cursor, when set, always holds a node with a
`CLASS:`-prefixed id. -/
def ccGood (cc : Option GraphNode) : Prop :=
  ∀ c, cc = some c → ∃ t, c.id = "CLASS:" ++ t

theorem generateId_class (n fp : String) :
    generateId "CLASS" n fp = "CLASS:" ++ (fp ++ ":" ++ n) := by
  unfold generateId
  have h : ("CLASS" ++ ":" : String) = "CLASS:" := rfl
  rw [← h]
  simp [String.append_assoc]

theorem generateId_function (n fp : String) :
    generateId "FUNCTION" n fp = "FUNCTION:" ++ (fp ++ ":" ++ n) := by
  unfold generateId
  have h : ("FUNCTION" ++ ":" : String) = "FUNCTION:" := rfl
  rw [← h]
  simp [String.append_assoc]

theorem forall_mem_append {α : Type} {P : α → Prop} {xs ys : List α}
    (hx : ∀ l ∈ xs, P l) (hy : ∀ l ∈ ys, P l) : ∀ l ∈ xs ++ ys, P l := by
  intro l hl
  rcases List.mem_append.mp hl with h | h
  · exact hx l h
  · exact hy l h

theorem importLinksFor_linkOK (filePaths : List String) (fPath fileId : String)
    (pred : String → Bool) :
    ∀ l ∈ importLinksFor filePaths fPath fileId pred, linkOK l := by
  intro l hl
  rcases importLinksFor_mem hl with ⟨p, _, rfl⟩
  intro ht
  exact absurd ht (by simp)

theorem jsClassSub_linkOK {depth : Int} {f : CodeFile} {lines : List String}
    {fileId : String} {index : Nat} {line : String} {st : LineState}
    (hfid : ∃ t, fileId = "FILE:" ++ t) (hst : ∀ l ∈ st.links, linkOK l) :
    ∀ l ∈ (jsClassSub depth f lines fileId index line st).links, linkOK l := by
  unfold jsClassSub
  split
  · next name _ =>
    refine forall_mem_append hst ?_
    intro l hl
    rw [List.mem_singleton] at hl
    subst hl
    intro _
    exact Or.inl ⟨hfid, Or.inl ⟨f.path ++ ":" ++ name, generateId_class name f.path⟩⟩
  · exact hst

theorem jsFuncSub_linkOK {depth : Int} {f : CodeFile} {lines : List String}
    {fileId : String} {index : Nat} {line : String} {st : LineState}
    (hfid : ∃ t, fileId = "FILE:" ++ t) (hst : ∀ l ∈ st.links, linkOK l) :
    ∀ l ∈ (jsFuncSub depth f lines fileId index line st).links, linkOK l := by
  unfold jsFuncSub
  split
  · next name _ =>
    refine forall_mem_append hst ?_
    intro l hl
    rw [List.mem_singleton] at hl
    subst hl
    intro _
    exact Or.inl ⟨hfid, Or.inr ⟨f.path ++ ":" ++ name, generateId_function name f.path⟩⟩
  · exact hst

theorem jsImportSub_linkOK {f : CodeFile} {filePaths : List String}
    {fileId line : String} {st : LineState} (hst : ∀ l ∈ st.links, linkOK l) :
    ∀ l ∈ (jsImportSub f filePaths fileId line st).links, linkOK l := by
  unfold jsImportSub
  split
  · split
    · exact forall_mem_append hst (importLinksFor_linkOK _ _ _ _)
    · exact hst
  · exact hst

theorem cppClassSub_linkOK {depth : Int} {f : CodeFile} {lines : List String}
    {fileId : String} {index : Nat} {line : String} {st : LineState}
    (hfid : ∃ t, fileId = "FILE:" ++ t) (hst : ∀ l ∈ st.links, linkOK l) :
    ∀ l ∈ (cppClassSub depth f lines fileId index line st).links, linkOK l := by
  unfold cppClassSub
  split
  · next name _ =>
    refine forall_mem_append hst ?_
    intro l hl
    rw [List.mem_singleton] at hl
    subst hl
    intro _
    exact Or.inl ⟨hfid, Or.inl ⟨f.path ++ ":" ++ name, generateId_class name f.path⟩⟩
  · exact hst

theorem cppFuncSub_linkOK {depth : Int} {f : CodeFile} {lines : List String}
    {fileId : String} {index : Nat} {line : String} {st : LineState}
    (hfid : ∃ t, fileId = "FILE:" ++ t) (hst : ∀ l ∈ st.links, linkOK l) :
    ∀ l ∈ (cppFuncSub depth f lines fileId index line st).links, linkOK l := by
  unfold cppFuncSub
  split
  · next name _ =>
    split
    · refine forall_mem_append hst ?_
      intro l hl
      rw [List.mem_singleton] at hl
      subst hl
      intro _
      exact Or.inl ⟨hfid, Or.inr ⟨f.path ++ ":" ++ name, generateId_function name f.path⟩⟩
    · exact hst
  · exact hst

theorem cppIncludeSub_linkOK {f : CodeFile} {filePaths : List String}
    {fileId line : String} {st : LineState} (hst : ∀ l ∈ st.links, linkOK l) :
    ∀ l ∈ (cppIncludeSub f filePaths fileId line st).links, linkOK l := by
  unfold cppIncludeSub
  split
  · split
    · exact forall_mem_append hst (importLinksFor_linkOK _ _ _ _)
    · exact hst
  · exact hst

theorem jsClassSub_cc (depth : Int) (f : CodeFile) (lines : List String)
    (fileId : String) (index : Nat) (line : String) (st : LineState) :
    (jsClassSub depth f lines fileId index line st).currentClass = st.currentClass := by
  unfold jsClassSub
  split <;> rfl

theorem jsFuncSub_cc (depth : Int) (f : CodeFile) (lines : List String)
    (fileId : String) (index : Nat) (line : String) (st : LineState) :
    (jsFuncSub depth f lines fileId index line st).currentClass = st.currentClass := by
  unfold jsFuncSub
  split <;> rfl

theorem jsImportSub_cc (f : CodeFile) (filePaths : List String) (fileId line : String)
    (st : LineState) :
    (jsImportSub f filePaths fileId line st).currentClass = st.currentClass := by
  unfold jsImportSub
  split
  · split <;> rfl
  · rfl

theorem cppClassSub_cc (depth : Int) (f : CodeFile) (lines : List String)
    (fileId : String) (index : Nat) (line : String) (st : LineState) :
    (cppClassSub depth f lines fileId index line st).currentClass = st.currentClass := by
  unfold cppClassSub
  split <;> rfl

theorem cppFuncSub_cc (depth : Int) (f : CodeFile) (lines : List String)
    (fileId : String) (index : Nat) (line : String) (st : LineState) :
    (cppFuncSub depth f lines fileId index line st).currentClass = st.currentClass := by
  unfold cppFuncSub
  split
  · split <;> rfl
  · rfl

theorem cppIncludeSub_cc (f : CodeFile) (filePaths : List String) (fileId line : String)
    (st : LineState) :
    (cppIncludeSub f filePaths fileId line st).currentClass = st.currentClass := by
  unfold cppIncludeSub
  split
  · split <;> rfl
  · rfl

theorem pyStep_invariant {depth : Int} {f : CodeFile} {lines : List String}
    {filePaths : List String} {fileId : String} {index : Nat} {line : String} {st : LineState}
    (hfid : ∃ t, fileId = "FILE:" ++ t) (hcc : ccGood st.currentClass)
    (hst : ∀ l ∈ st.links, linkOK l) :
    (∀ l ∈ (pyStep depth f lines filePaths fileId index line st).links, linkOK l) ∧
      ccGood (pyStep depth f lines filePaths fileId index line st).currentClass := by
  unfold pyStep
  split
  · next name _ =>
    constructor
    · refine forall_mem_append hst ?_
      intro l hl
      rw [List.mem_singleton] at hl
      subst hl
      intro _
      exact Or.inl ⟨hfid, Or.inl ⟨f.path ++ ":" ++ name, generateId_class name f.path⟩⟩
    · intro c hc
      simp only [Option.some.injEq] at hc
      subst hc
      exact ⟨f.path ++ ":" ++ name, generateId_class name f.path⟩
  · have hmain : ∀ st1 : LineState,
        (∀ l ∈ st1.links, linkOK l) → ccGood st1.currentClass →
        (∀ l ∈ (match matchPyImport line with
          | some moduleName =>
            { st1 with links := st1.links ++
                importLinksFor filePaths f.path fileId (fun p => strIncludes p moduleName) }
          | none => st1).links, linkOK l) ∧
        ccGood (match matchPyImport line with
          | some moduleName =>
            { st1 with links := st1.links ++
                importLinksFor filePaths f.path fileId (fun p => strIncludes p moduleName) }
          | none => st1).currentClass := by
      intro st1 h1 h2
      cases matchPyImport line with
      | some m => exact ⟨forall_mem_append h1 (importLinksFor_linkOK _ _ _ _), h2⟩
      | none => exact ⟨h1, h2⟩
    split
    · next name _ =>
      split
      · next c hcsome =>
        split
        · refine hmain _ ?_ ?_
          · refine forall_mem_append hst ?_
            intro l hl
            rw [List.mem_singleton] at hl
            subst hl
            intro _
            rcases hcc c hcsome with ⟨t, hct⟩
            exact Or.inr ⟨⟨t, hct⟩, ⟨f.path ++ ":" ++ name, generateId_function name f.path⟩⟩
          · show ccGood st.currentClass
            exact hcc
        · refine hmain _ ?_ ?_
          · refine forall_mem_append hst ?_
            intro l hl
            rw [List.mem_singleton] at hl
            subst hl
            intro _
            exact Or.inl ⟨hfid, Or.inr ⟨f.path ++ ":" ++ name, generateId_function name f.path⟩⟩
          · intro c hc
            simp at hc
      · refine hmain _ ?_ ?_
        · refine forall_mem_append hst ?_
          intro l hl
          rw [List.mem_singleton] at hl
          subst hl
          intro _
          exact Or.inl ⟨hfid, Or.inr ⟨f.path ++ ":" ++ name, generateId_function name f.path⟩⟩
        · intro c hc
          simp at hc
    · exact hmain st hst hcc

theorem processLine_invariant {depth : Int} {f : CodeFile} {lines : List String}
    {filePaths : List String} {fileId : String} {st : LineState} {entry : Nat × String}
    (hfid : ∃ t, fileId = "FILE:" ++ t) (hcc : ccGood st.currentClass)
    (hst : ∀ l ∈ st.links, linkOK l) :
    (∀ l ∈ (processLine depth f lines filePaths fileId st entry).links, linkOK l) ∧
      ccGood (processLine depth f lines filePaths fileId st entry).currentClass := by
  unfold processLine
  split
  · exact ⟨hst, hcc⟩
  · split
    · exact pyStep_invariant hfid hcc hst
    · split
      · unfold jsStep
        constructor
        · exact jsImportSub_linkOK (jsFuncSub_linkOK hfid (jsClassSub_linkOK hfid hst))
        · rw [jsImportSub_cc, jsFuncSub_cc, jsClassSub_cc]
          exact hcc
      · split
        · unfold cppStep
          constructor
          · exact cppIncludeSub_linkOK (cppFuncSub_linkOK hfid (cppClassSub_linkOK hfid hst))
          · rw [cppIncludeSub_cc, cppFuncSub_cc, cppClassSub_cc]
            exact hcc
        · exact ⟨hst, hcc⟩

theorem foldl_processLine_invariant (depth : Int) (f : CodeFile) (lines : List String)
    (filePaths : List String) (fileId : String) (hfid : ∃ t, fileId = "FILE:" ++ t) :
    ∀ (entries : List (Nat × String)) (st : LineState),
      ccGood st.currentClass → (∀ l ∈ st.links, linkOK l) →
      ∀ l ∈ (entries.foldl (processLine depth f lines filePaths fileId) st).links, linkOK l := by
  intro entries
  induction entries with
  | nil => intro st _ hst; exact hst
  | cons e es ih =>
    intro st hcc hst
    rw [List.foldl_cons]
    have h := @processLine_invariant depth f lines filePaths fileId st e hfid hcc hst
    exact ih _ h.2 h.1

theorem processFile_linkOK (depth : Int) (filePaths : List String)
    (acc : List GraphNode × List GraphLink) (f : CodeFile)
    (hacc : ∀ l ∈ acc.2, linkOK l) :
    ∀ l ∈ (processFile depth filePaths acc f).2, linkOK l := by
  show ∀ l ∈ (List.foldl (processLine depth f (linesOf f) filePaths ("FILE:" ++ f.path))
      { nodes := acc.1, links := acc.2, currentClass := none } (linesOf f).enum).links, linkOK l
  refine foldl_processLine_invariant depth f (linesOf f) filePaths _ ⟨f.path, rfl⟩ _ _ ?_ hacc
  intro c hc
  simp at hc

theorem foldl_processFile_linkOK (depth : Int) (filePaths : List String) :
    ∀ (fs : List CodeFile) (acc : List GraphNode × List GraphLink),
      (∀ l ∈ acc.2, linkOK l) →
      ∀ l ∈ (fs.foldl (processFile depth filePaths) acc).2, linkOK l := by
  intro fs
  induction fs with
  | nil => intro acc hacc; exact hacc
  | cons f fs ih =>
    intro acc hacc
    rw [List.foldl_cons]
    exact ih _ (processFile_linkOK depth filePaths acc f hacc)

theorem analyzeCodebase_links_def (files : List CodeFile) (depth : Int) :
    (analyzeCodebase files depth).links =
      (files.foldl (processFile depth (mapSetFold (files.map (fun f => f.path))))
        (files.map mkFileNode, [])).2 := rfl

theorem analyzeCodebase_linkOK (files : List CodeFile) (depth : Int) :
    ∀ l ∈ (analyzeCodebase files depth).links, linkOK l := by
  rw [analyzeCodebase_links_def]
  refine foldl_processFile_linkOK _ _ files _ ?_
  intro l hl
  simp at hl

/-- Rank of a node id by its prefix: File ids rank 0, Class ids rank 1,
Function ids rank 2. -/
def idRank (s : String) : Nat :=
  if "CLASS:".data.isPrefixOf s.data then 1
  else if "FUNCTION:".data.isPrefixOf s.data then 2
  else 0

theorem not_class_prefix_file (t : String) :
    "CLASS:".data.isPrefixOf ("FILE:" ++ t).data = false := by
  rw [String.data_append]
  rfl

theorem not_fun_prefix_file (t : String) :
    "FUNCTION:".data.isPrefixOf ("FILE:" ++ t).data = false := by
  rw [String.data_append]
  rfl

theorem not_class_prefix_fun (t : String) :
    "CLASS:".data.isPrefixOf ("FUNCTION:" ++ t).data = false := by
  rw [String.data_append]
  rfl

theorem isPrefixOf_append_self : ∀ (l r : List Char), l.isPrefixOf (l ++ r) = true := by
  intro l r
  induction l with
  | nil => simp [List.isPrefixOf]
  | cons a as ih => simp [List.isPrefixOf, ih]

theorem class_prefix_class (t : String) :
    "CLASS:".data.isPrefixOf ("CLASS:" ++ t).data = true := by
  rw [String.data_append]
  exact isPrefixOf_append_self _ _

theorem fun_prefix_fun (t : String) :
    "FUNCTION:".data.isPrefixOf ("FUNCTION:" ++ t).data = true := by
  rw [String.data_append]
  exact isPrefixOf_append_self _ _

theorem idRank_file (t : String) : idRank ("FILE:" ++ t) = 0 := by
  unfold idRank
  rw [not_class_prefix_file, not_fun_prefix_file]
  rfl

theorem idRank_class (t : String) : idRank ("CLASS:" ++ t) = 1 := by
  unfold idRank
  rw [class_prefix_class]
  rfl

theorem idRank_fun (t : String) : idRank ("FUNCTION:" ++ t) = 2 := by
  unfold idRank
  rw [not_class_prefix_fun, fun_prefix_fun]
  rfl

/-- One Contains step of the produced graph, viewed as a relation on ids. -/
def containsRel (g : AnalysisResult) (a b : String) : Prop :=
  ∃ l, l ∈ g.links ∧ l.type = .CONTAINS ∧ l.source = a ∧ l.target = b

theorem containsRel_rank {files : List CodeFile} {depth : Int} {a b : String}
    (h : containsRel (analyzeCodebase files depth) a b) : idRank a < idRank b := by
  rcases h with ⟨l, hl, ht, ha, hb⟩
  subst ha
  subst hb
  have hshape := analyzeCodebase_linkOK files depth l hl ht
  rcases hshape with ⟨⟨t, hs⟩, ⟨u, hT⟩ | ⟨u, hT⟩⟩ | ⟨⟨t, hs⟩, ⟨u, hT⟩⟩ <;>
    rw [hs, hT] <;>
      simp [idRank_file, idRank_class, idRank_fun]

/-- C7 counterexample input: a Python file in which a method `m` of class `A`
and a later top-level function `m` collide on the id `FUNCTION:cex.py:m`,
which therefore receives two incoming Contains edges (one from the class
node, one from the file node). -/
def cexPyFile : CodeFile :=
  { name := "cex.py", path := "cex.py",
    content := "class A:\n    def m(self):\n        pass\ndef m():\n    pass" }

/-- C7 counterexample: it is not true that every id has at most one incoming
Contains edge — in the graph of `cexPyFile` at depth 3 the id
`FUNCTION:cex.py:m` has two. -/
theorem c7_counterexample :
    ¬ (∀ s : String,
        ((analyzeCodebase [cexPyFile] 3).links.filter
          (fun l => decide (l.type = LinkType.CONTAINS) && decide (l.target = s))).length ≤ 1) := by
  intro hall
  exact absurd (hall "FUNCTION:cex.py:m") (by decide)

/-- C7 (amended): every Contains edge of the produced graph is File→Class,
File→Function or Class→Function (by id prefix), and the Contains relation on
ids has no cycles; however an id may receive more than one incoming Contains
edge (see the counterexample), so the edges form a dag on ids rather than a
forest. -/
theorem c7_contains_shape_acyclic (files : List CodeFile) (depth : Int) :
    (∀ l ∈ (analyzeCodebase files depth).links, l.type = .CONTAINS → containsShape l) ∧
    (∀ a : String, ¬ Relation.TransGen (containsRel (analyzeCodebase files depth)) a a) := by
  constructor
  · intro l hl ht
    exact analyzeCodebase_linkOK files depth l hl ht
  · intro a hcyc
    have key : ∀ {x y : String},
        Relation.TransGen (containsRel (analyzeCodebase files depth)) x y →
        idRank x < idRank y := by
      intro x y hxy
      induction hxy with
      | single h => exact containsRel_rank h
      | tail _ h ih => exact lt_trans ih (containsRel_rank h)
    exact absurd (key hcyc) (lt_irrefl _)

/-- C9: on the empty file set the extractor returns normally for every
integer depth — also outside `{1,2,3}` — with no nodes, no edges, and a
summary stating that zero files were scanned.  (Totality is inherent: the
embedding is a total function.) -/
theorem listIsInfix_append_left (n : List Char) :
    ∀ (x y : List Char), listIsInfix n y = true → listIsInfix n (x ++ y) = true := by
  intro x
  induction x with
  | nil => intro y h; simpa using h
  | cons c t ih =>
    intro y h
    show listIsInfix n (c :: (t ++ y)) = true
    unfold listIsInfix
    rw [Bool.or_eq_true]
    exact Or.inr (ih y h)

theorem c9_empty_file_set (depth : Int) :
    (analyzeCodebase [] depth).nodes = [] ∧ (analyzeCodebase [] depth).links = [] ∧
    (analyzeCodebase [] depth).summary =
      "Offline analysis complete (Depth: " ++ toString depth ++ "). \n  Scanned " ++ "0" ++
        " files. \n  Identified " ++ "0" ++ " classes and " ++ "0" ++ " functions." ∧
    strIncludes (analyzeCodebase [] depth).summary "Scanned 0 files" = true := by
  have h0 : toString (0 : Nat) = "0" := by decide
  have hsum : (analyzeCodebase [] depth).summary =
      "Offline analysis complete (Depth: " ++ toString depth ++ "). \n  Scanned " ++ "0" ++
        " files. \n  Identified " ++ "0" ++ " classes and " ++ "0" ++ " functions." := by
    show ("Offline analysis complete (Depth: " ++ toString depth ++ "). \n  Scanned " ++
        toString (0 : Nat) ++ " files. \n  Identified " ++ toString (0 : Nat) ++
        " classes and " ++ toString (0 : Nat) ++ " functions.") =
      "Offline analysis complete (Depth: " ++ toString depth ++ "). \n  Scanned " ++ "0" ++
        " files. \n  Identified " ++ "0" ++ " classes and " ++ "0" ++ " functions."
    rw [h0]
  refine ⟨rfl, rfl, hsum, ?_⟩
  rw [hsum]
  unfold strIncludes
  simp only [String.data_append, List.append_assoc]
  apply listIsInfix_append_left
  apply listIsInfix_append_left
  decide

/-!  Shape of the emitted nodes. -/

/-- Properties shared by every Class/Function node a line emits: it carries
the enclosing file's path, the 1-indexed line number, an estimator result as
its end line, and the `kind:filePath:label` id. -/
def constructNodeOK (f : CodeFile) (lines : List String) (index : Nat) (n : GraphNode) : Prop :=
  n.file = f.path ∧ n.startLine = index + 1 ∧
  (∃ lang, n.endLine = determineEndLine lines index lang) ∧
  (n.type = .CLASS ∨ n.type = .FUNCTION) ∧
  n.id = nodeTypeStr n.type ++ ":" ++ n.file ++ ":" ++ n.label

theorem pyNewNodes_mem {depth : Int} {f : CodeFile} {lines : List String} {index : Nat}
    {line : String} {n : GraphNode} (h : n ∈ pyNewNodes depth f lines index line) :
    constructNodeOK f lines index n := by
  unfold pyNewNodes at h
  split at h
  · rw [List.mem_singleton] at h
    subst h
    exact ⟨rfl, rfl, ⟨.PYTHON, rfl⟩, Or.inl rfl, rfl⟩
  · split at h
    · rw [List.mem_singleton] at h
      subst h
      exact ⟨rfl, rfl, ⟨.PYTHON, rfl⟩, Or.inr rfl, rfl⟩
    · exact absurd h (by simp)

theorem jsNewNodes_mem {depth : Int} {f : CodeFile} {lines : List String} {index : Nat}
    {line : String} {n : GraphNode} (h : n ∈ jsNewNodes depth f lines index line) :
    constructNodeOK f lines index n := by
  unfold jsNewNodes at h
  rcases List.mem_append.mp h with h | h
  · split at h
    · rw [List.mem_singleton] at h
      subst h
      exact ⟨rfl, rfl, ⟨.JS, rfl⟩, Or.inl rfl, rfl⟩
    · exact absurd h (by simp)
  · split at h
    · rw [List.mem_singleton] at h
      subst h
      exact ⟨rfl, rfl, ⟨.JS, rfl⟩, Or.inr rfl, rfl⟩
    · exact absurd h (by simp)

theorem cppNewNodes_mem {depth : Int} {f : CodeFile} {lines : List String} {index : Nat}
    {line : String} {n : GraphNode} (h : n ∈ cppNewNodes depth f lines index line) :
    constructNodeOK f lines index n := by
  unfold cppNewNodes at h
  rcases List.mem_append.mp h with h | h
  · split at h
    · rw [List.mem_singleton] at h
      subst h
      exact ⟨rfl, rfl, ⟨.C_CPP, rfl⟩, Or.inl rfl, rfl⟩
    · exact absurd h (by simp)
  · split at h
    · split at h
      · rw [List.mem_singleton] at h
        subst h
        exact ⟨rfl, rfl, ⟨.C_CPP, rfl⟩, Or.inr rfl, rfl⟩
      · exact absurd h (by simp)
    · exact absurd h (by simp)

theorem lineNewNodes_mem {depth : Int} {f : CodeFile} {lines : List String} {index : Nat}
    {line : String} {n : GraphNode} (h : n ∈ lineNewNodes depth f lines index line) :
    constructNodeOK f lines index n := by
  unfold lineNewNodes at h
  split at h
  · exact absurd h (by simp)
  · split at h
    · exact pyNewNodes_mem h
    · split at h
      · exact jsNewNodes_mem h
      · split at h
        · exact cppNewNodes_mem h
        · exact absurd h (by simp)

/-- Every node of the produced graph is either a File node of one of the
input files, or a Class/Function node emitted at some in-range line index of
one of the input files. -/
theorem analyzeCodebase_nodes_mem {files : List CodeFile} {depth : Int} {n : GraphNode}
    (h : n ∈ (analyzeCodebase files depth).nodes) :
    (∃ f ∈ files, n = mkFileNode f) ∨
    (∃ f ∈ files, ∃ index, index < (linesOf f).length ∧
      constructNodeOK f (linesOf f) index n) := by
  rw [analyzeCodebase_nodes] at h
  rcases List.mem_append.mp h with h | h
  · rcases List.mem_map.mp h with ⟨f, hf, rfl⟩
    exact Or.inl ⟨f, hf, rfl⟩
  · rcases List.mem_flatMap.mp h with ⟨f, hf, h2⟩
    unfold fileNewNodes nodesOfEntries at h2
    rcases List.mem_flatMap.mp h2 with ⟨e, he, h3⟩
    exact Or.inr ⟨f, hf, e.1, List.fst_lt_of_mem_enum he, lineNewNodes_mem h3⟩

/-- C3: for every input file set (with distinct paths, paths being the
unique external key) and every depth, every Class and Function node
satisfies `1 ≤ startLine ≤ endLine ≤ lineCount` of the file named by its
`filePath`. -/
theorem c3_span_bounds (files : List CodeFile) (depth : Int)
    (hnd : (files.map CodeFile.path).Nodup) :
    ∀ n ∈ (analyzeCodebase files depth).nodes, (n.type = .CLASS ∨ n.type = .FUNCTION) →
      ∀ g ∈ files, g.path = n.file →
        1 ≤ n.startLine ∧ n.startLine ≤ n.endLine ∧ n.endLine ≤ (linesOf g).length := by
  intro n hn htype g hg hgpath
  rcases analyzeCodebase_nodes_mem hn with ⟨f, _, rfl⟩ | ⟨f, hf, index, hidx, hok⟩
  · rcases htype with ht | ht <;> exact absurd ht (by simp [mkFileNode])
  · rcases hok with ⟨hfile, hstart, ⟨lang, hend⟩, _, _⟩
    have hfg : g = f := List.inj_on_of_nodup_map hnd hg hf (by rw [hgpath, hfile])
    subst hfg
    have hb := @determineEndLine_bounds (linesOf g) index hidx lang
    rw [hstart, hend]
    exact ⟨Nat.succ_le_succ (Nat.zero_le _), hb.1, hb.2⟩

/-- C8 counterexample: File nodes do not follow the `kind:filePath:label`
id scheme — for the single file `b.py` the File node's id is `FILE:b.py`,
not `FILE:b.py:b.py`. -/
theorem c8_counterexample :
    ¬ (∀ n ∈ (analyzeCodebase [{ name := "b.py", path := "b.py", content := "x = 1\n" }] 3).nodes,
        n.id = nodeTypeStr n.type ++ ":" ++ n.file ++ ":" ++ n.label) := by
  intro hall
  have hmem : mkFileNode { name := "b.py", path := "b.py", content := "x = 1\n" } ∈
      (analyzeCodebase [{ name := "b.py", path := "b.py", content := "x = 1\n" }] 3).nodes := by
    decide
  exact absurd (hall _ hmem) (by decide)

/-- C8 (amended): Class and Function nodes have id `kind:filePath:label`
(built by `generateId`); File nodes instead have id `FILE:` followed by the
file's path only. -/
theorem c8_id_scheme (files : List CodeFile) (depth : Int) :
    ∀ n ∈ (analyzeCodebase files depth).nodes,
      ((n.type = .CLASS ∨ n.type = .FUNCTION) →
        n.id = nodeTypeStr n.type ++ ":" ++ n.file ++ ":" ++ n.label) ∧
      (n.type = .FILE → n.id = "FILE:" ++ n.file) := by
  intro n hn
  rcases analyzeCodebase_nodes_mem hn with ⟨f, _, rfl⟩ | ⟨f, hf, index, hidx, hok⟩
  · constructor
    · intro htype
      rcases htype with ht | ht <;> exact absurd ht (by simp [mkFileNode])
    · intro _
      rfl
  · rcases hok with ⟨_, _, _, htype, hid⟩
    constructor
    · intro _
      exact hid
    · intro hfile
      rcases htype with ht | ht <;> rw [ht] at hfile <;> exact absurd hfile (by simp)

/-!  Concrete end-to-end scenario and the C/C++ declaration filter. -/

/-- The two-file end-to-end input: `a.py`. -/
def aDemoFile : CodeFile :=
  { name := "a.py", path := "a.py",
    content := "import b\nclass A:\n    def m(self):\n        pass\n" }

/-- The two-file end-to-end input: `b.py`. -/
def bDemoFile : CodeFile :=
  { name := "b.py", path := "b.py", content := "x = 1\n" }

/-- C1: on the two-file input at depth 3 the extractor yields exactly 2 File
nodes, one Class node labelled `A`, one Function node labelled `m` whose
Contains edge comes from the Class node (not the File node), exactly one
Import edge from `a.py`'s File node to `b.py`'s, and nothing else concerning
`b.py`'s contents (its only node is its File node and its only incident edge
is that Import edge). -/
theorem c1_end_to_end :
    ((analyzeCodebase [aDemoFile, bDemoFile] 3).nodes.filter
        (fun n => decide (n.type = NodeType.FILE))).length = 2 ∧
    ((analyzeCodebase [aDemoFile, bDemoFile] 3).nodes.filter
        (fun n => decide (n.type = NodeType.CLASS))).map GraphNode.label = ["A"] ∧
    ((analyzeCodebase [aDemoFile, bDemoFile] 3).nodes.filter
        (fun n => decide (n.type = NodeType.FUNCTION))).map GraphNode.label = ["m"] ∧
    ((analyzeCodebase [aDemoFile, bDemoFile] 3).links.filter
        (fun l => decide (l.type = LinkType.CONTAINS) && decide (l.target = "FUNCTION:a.py:m"))) =
      [{ source := "CLASS:a.py:A", target := "FUNCTION:a.py:m", type := .CONTAINS }] ∧
    ((analyzeCodebase [aDemoFile, bDemoFile] 3).links.filter isImportLink) =
      [{ source := "FILE:a.py", target := "FILE:b.py", type := .IMPORT }] ∧
    ((analyzeCodebase [aDemoFile, bDemoFile] 3).nodes.filter
        (fun n => decide (n.file = "b.py"))) = [mkFileNode bDemoFile] ∧
    ((analyzeCodebase [aDemoFile, bDemoFile] 3).links.filter
        (fun l => decide (l.source = "FILE:b.py") || decide (l.target = "FILE:b.py"))) =
      [{ source := "FILE:a.py", target := "FILE:b.py", type := .IMPORT }] := by
  decide

/-- C6: in the C/C++ family, a line whose trimmed text ends with a semicolon
or whose captured name is a control-flow keyword never produces a Function
node (only the line's class/struct match, if any, can add a node, and that
node is a Class node); concretely, `"void f(int x);"` yields no Function
node and `"void f(int x) {"` yields exactly one, labelled `f`. -/
theorem c6_cpp_declaration_filter :
    (∀ (depth : Int) (f : CodeFile) (lines : List String) (filePaths : List String)
        (fileId : String) (index : Nat) (line : String) (st : LineState),
      (strEndsWith (String.mk (jsTrim line.data)) ";" = true ∨
        (∀ nm, cppFuncMatch line = some nm → nm ∈ cppKeywords)) →
      ∀ n ∈ (cppStep depth f lines filePaths fileId index line st).nodes,
        n ∈ st.nodes ∨ n.type ≠ .FUNCTION) ∧
    ((analyzeCodebase [{ name := "t.c", path := "t.c", content := "void f(int x);" }] 3).nodes.filter
      (fun n => decide (n.type = NodeType.FUNCTION))) = [] ∧
    ((analyzeCodebase [{ name := "t.c", path := "t.c", content := "void f(int x) \x7b" }] 3).nodes.filter
      (fun n => decide (n.type = NodeType.FUNCTION))).map GraphNode.label = ["f"] := by
  refine ⟨?_, by decide, by decide⟩
  intro depth f lines filePaths fileId index line st hyp n hn
  rw [cppStep_nodes] at hn
  rcases List.mem_append.mp hn with h | h
  · exact Or.inl h
  · right
    unfold cppNewNodes at h
    rcases List.mem_append.mp h with h | h
    · split at h
      · rw [List.mem_singleton] at h
        subst h
        simp [cppClassNode]
      · exact absurd h (by simp)
    · split at h
      · next name heq =>
        split at h
        · next hguard =>
          exfalso
          rw [Bool.and_eq_true] at hguard
          rcases hyp with hsemi | hkw
          · rw [hsemi] at hguard
            exact absurd hguard.2 (by decide)
          · have hsome : cppFuncMatch line = some name := if_none_eq_some heq
            have hmem := hkw name hsome
            have hc : cppKeywords.contains name = true := List.elem_eq_true_of_mem hmem
            rw [hc] at hguard
            exact absurd hguard.1 (by decide)
        · exact absurd h (by simp)
      · exact absurd h (by simp)

/-- Witness for C3: the Class node `A` of the two-file scenario spans lines
2–5 of `a.py`, within the file's 5 lines. -/
theorem c3_witness :
    1 ≤ (2 : Nat) ∧ (2 : Nat) ≤ 5 ∧ (5 : Nat) ≤ (linesOf aDemoFile).length := by
  exact c3_span_bounds [aDemoFile, bDemoFile] 3 (by decide)
    { id := "CLASS:a.py:A", label := "A", type := .CLASS, file := "a.py",
      startLine := 2, endLine := 5, details := "Class definition in a.py" }
    (by decide) (Or.inl rfl) aDemoFile (by decide) rfl

/-- Witness for the amended C8: the File node of `b.py` has id `FILE:` plus
its path. -/
theorem c8_witness :
    (mkFileNode bDemoFile).id = "FILE:" ++ (mkFileNode bDemoFile).file := by
  exact (c8_id_scheme [bDemoFile] 3 (mkFileNode bDemoFile) (by decide)).2 rfl

/-- Witness for C10: the one Import edge of the two-file scenario has
distinct endpoints. -/
theorem c10_witness : ("FILE:a.py" : String) ≠ "FILE:b.py" := by
  exact c10_no_self_import [aDemoFile, bDemoFile] 3
    { source := "FILE:a.py", target := "FILE:b.py", type := .IMPORT } (by decide) rfl

end StaticCodeViewer
